import Mathlib

/-!
Verification development for the `worths` personal-finance tracker.

This file gives a shallow embedding, in Lean, of the snapshot aggregation and
integrity-repair engine of the repository:

* `app/plugins/db.client.ts` — month enumeration, month-end resolution, the
  snapshot calculator, the snapshot writer and the regeneration orchestrator
  (`getAllMonths`, `getMonthEndDate`, `calculateSnapshotForMonth`,
  `generateAllSnapshots`, `regenerateSnapshotForMonth`);
* the integrity-check plugin — the auditor (`calculateExpectedSnapshot`,
  `verifySnapshot`, `runIntegrityCheck`);
* `app/composables/useDatabase.ts` — the mutation API (`addAccount`,
  `updateAccount`, `updateBalance`, `updateCategory`, `importDatabase`,
  `isDatabaseExport`).

Modelling conventions:

* JS numbers are embedded as `ℚ` (exact arithmetic; float rounding is out of
  scope of the properties proved here).
* JS strings are embedded as `String`; the JS relational operators on strings
  compare UTF-16 code units lexicographically, which for the basic-plane
  characters appearing in dates coincides with the code-point comparison
  implemented here on `String.data`.
* The IndexedDB tables are embedded as lists of typed rows, kept in primary-key
  order (the order `toArray` yields).  Dexie's `where('ix').equals(v)` scans an
  index whose entries with equal index key are ordered by primary key, so
  `.first()` / `.last()` on such a collection return the matching row with the
  least / greatest primary key; the model implements exactly that.
* IndexedDB `++id` key generators are monotone and are not reset by deletes or
  `clear()`; the model threads explicit `next…Id` counters through the state.
* `new Date().toISOString()` values (generation timestamps, creation dates) are
  passed in as explicit `now` / `today` arguments: the clock is an input of the
  embedding.
* Async/await and Dexie transactions serialize every operation here; each
  operation is embedded as a pure state transformer on the whole database.
-/

namespace Worths

/-- JS lexicographic comparison of strings (`a <= b`), as code-unit order on
the underlying character lists. -/
def lexLe : List Char → List Char → Bool
  | [], _ => true
  | _ :: _, [] => false
  | a :: as, b :: bs =>
    if a.val < b.val then true
    else if b.val < a.val then false
    else lexLe as bs

/-- JS `a <= b` on strings. -/
def jsLe (a b : String) : Bool := lexLe a.data b.data

/-- JS `String.prototype.substring(0, n)`. -/
def jsTake (s : String) (n : Nat) : String := ⟨s.data.take n⟩

/-- JS `String.prototype.split(sep)` for a one-character separator. -/
def splitOnChar (sep : Char) : List Char → List (List Char)
  | [] => [[]]
  | c :: cs =>
    let r := splitOnChar sep cs
    if c = sep then [] :: r
    else
      match r with
      | [] => [[c]]
      | h :: t => (c :: h) :: t

/-- Numeric value of a decimal digit list (most significant first),
accumulator form. -/
def digitsToNatAux (acc : Nat) : List Char → Nat
  | [] => acc
  | c :: cs => digitsToNatAux (acc * 10 + (c.toNat - 48)) cs

/-- JS `Number(s)` restricted to the strings the engine feeds it: the empty
string coerce to `0`, a digit string to its value; anything else is `NaN`,
modelled as `none`.  (Fractional or signed numeric strings never reach this
function through the engine's month handling.) -/
def jsNumber? (s : String) : Option Nat :=
  if s.data.isEmpty then some 0
  else if s.data.all (·.isDigit) then some (digitsToNatAux 0 s.data) else none

/-- Gregorian leap-year rule, as implemented by the JS `Date` calendar. -/
def isLeapYear (y : Nat) : Bool :=
  y % 4 = 0 && (y % 100 ≠ 0 || y % 400 = 0)

/-- Number of days of 1-based month `m` of year `y`, as `new Date(y, m, 0)
.getDate()` computes it: months past 12 roll the year over, month 0 is the
December of the previous year (31 days), and two-digit years are interpreted
as 1900-based by the `Date` constructor. -/
def daysInMonth (y m : Nat) : Nat :=
  if m = 0 then 31
  else
    let y := y + (m - 1) / 12
    let m := (m - 1) % 12 + 1
    let yAdj := if y < 100 then 1900 + y else y
    if m = 2 then (if isLeapYear yAdj then 29 else 28)
    else if m = 4 || m = 6 || m = 9 || m = 11 then 30
    else 31

/-- Decimal digit as a character. -/
def digitChar (n : Nat) : Char := Char.ofNat (48 + n)

/-- JS `String(n).padStart(2, '0')` for the day numbers (always < 100) the
engine produces. -/
def pad2 (n : Nat) : List Char :=
  if n < 10 then ['0', digitChar n]
  else [digitChar (n / 10), digitChar (n % 10)]

/-- Last calendar day of a month, from `getMonthEndDate` in `db.client.ts`:
split the `yyyy-mm` string on `-`, coerce the parts to numbers (defaulting a
missing year to 2000 and a missing month to 1), and append the padded day
count.  A part that coerce to `NaN` makes JS interpolate the string `"NaN"`
as the day. -/
def getMonthEndDate (month : String) : String :=
  let parts := (splitOnChar '-' month.data).map fun p => jsNumber? (⟨p⟩ : String)
  let year? := (parts.get? 0).getD (some 2000)
  let monthNum? := (parts.get? 1).getD (some 1)
  match year?, monthNum? with
  | some year, some monthNum => ⟨month.data ++ '-' :: pad2 (daysInMonth year monthNum)⟩
  | _, _ => ⟨month.data ++ '-' :: ['N', 'a', 'N']⟩

/-- Account polarity, `'asset' | 'liability'`. -/
inductive AccountType where
  | asset
  | liability
deriving DecidableEq, Repr

/-- Ownership tag, `'me' | 'spouse' | 'joint'`. -/
inductive OwnerType where
  | me
  | spouse
  | joint
deriving DecidableEq, Repr

/-- Row of the `accounts` table (`DbAccount` in `types/db.ts`).  A JS row whose
`id` is missing is read back as falsy; the engine's `!account.id` guard also
fires on `id === 0`, so the model uses `0` for an absent id. -/
structure DbAccount where
  id : Nat
  name : String
  bank : String
  categoryId : Nat
  owner : OwnerType
  type : AccountType
  createdAt : String
  notes : Option String
deriving DecidableEq, Repr

/-- Row of the `balances` table (`DbBalance`). -/
structure DbBalance where
  id : Nat
  accountId : Nat
  date : String
  value : ℚ
deriving DecidableEq, Repr

/-- Row of the `categories` table (`DbCategory`). -/
structure DbCategory where
  id : Nat
  name : String
  type : AccountType
deriving DecidableEq, Repr

/-- Row of the `transactions` table (`DbTransaction`); carried through import
and export but never read by the engine. -/
structure DbTransaction where
  id : Nat
  accountId : Nat
  date : String
  amount : ℚ
  description : String
deriving DecidableEq, Repr

/-- Row of the `monthlySnapshots` table (`DbMonthlySnapshot`); the primary key
is the month string itself. -/
structure DbMonthlySnapshot where
  month : String
  assetsTotal : ℚ
  liabilitiesTotal : ℚ
  netWorth : ℚ
  createdAt : String
deriving DecidableEq, Repr

/-- Row of the `categorySnapshots` table (`DbCategorySnapshot`). -/
structure DbCategorySnapshot where
  id : Nat
  month : String
  categoryId : Nat
  type : AccountType
  total : ℚ
deriving DecidableEq, Repr

/-- Row of the `profile` table (`DbProfile`). -/
structure DbProfile where
  id : Nat
  userName : Option String
  spouseName : Option String
  userColor : Option String
  spouseColor : Option String
deriving DecidableEq, Repr

/-- The whole IndexedDB state of `networth-db`: the tables (rows listed in
primary-key order) together with the `++id` key-generator positions, which
IndexedDB keeps monotone across deletes. -/
structure DB where
  accounts : List DbAccount
  balances : List DbBalance
  categories : List DbCategory
  transactions : List DbTransaction
  monthlySnapshots : List DbMonthlySnapshot
  categorySnapshots : List DbCategorySnapshot
  profile : List DbProfile
  nextAccountId : Nat
  nextBalanceId : Nat
  nextCategorySnapshotId : Nat
deriving DecidableEq, Repr

/-- Dexie `balances.where('accountId').equals(aid).filter(p).first()`: the
index lists rows with equal `accountId` in primary-key order, so this is the
matching row with the least id. -/
def balancesFirst (bs : List DbBalance) (aid : Nat) (p : DbBalance → Bool) : Option DbBalance :=
  (bs.filter fun b => b.accountId = aid && p b).foldl
    (fun best b =>
      match best with
      | none => some b
      | some a => if b.id < a.id then some b else some a)
    none

/-- Dexie `balances.where('accountId').equals(aid).filter(p).last()`: the
matching row with the greatest id (reverse index order). -/
def balancesLast (bs : List DbBalance) (aid : Nat) (p : DbBalance → Bool) : Option DbBalance :=
  (bs.filter fun b => b.accountId = aid && p b).foldl
    (fun best b =>
      match best with
      | none => some b
      | some a => if a.id < b.id then some b else some a)
    none

/-- Dexie `categories.where('name').equals(n).first()`: matching row with the
least id. -/
def categoriesFirstByName (cs : List DbCategory) (n : String) : Option DbCategory :=
  (cs.filter fun c => c.name = n).foldl
    (fun best c =>
      match best with
      | none => some c
      | some a => if c.id < a.id then some c else some a)
    none

/-- ASCII lower-casing of one character, the case folding
`equalsIgnoreCase` applies to the names appearing here. -/
def lowerChar (c : Char) : Char :=
  if 'A' ≤ c && c ≤ 'Z' then Char.ofNat (c.toNat + 32) else c

/-- Case-insensitive string equality, for Dexie `equalsIgnoreCase`. -/
def eqIgnoreCase (a b : String) : Bool :=
  a.data.map lowerChar = b.data.map lowerChar

/-- Dexie `categories.where('name').equalsIgnoreCase(n).first()`. -/
def categoriesFirstByNameCI (cs : List DbCategory) (n : String) : Option DbCategory :=
  (cs.filter fun c => eqIgnoreCase c.name n).foldl
    (fun best c =>
      match best with
      | none => some c
      | some a => if c.id < a.id then some c else some a)
    none

/-- Lookup in the `monthlySnapshots` table by its `month` primary key
(`monthlySnapshots.get(month)`). -/
def monthlyGet (tbl : List DbMonthlySnapshot) (month : String) : Option DbMonthlySnapshot :=
  tbl.find? fun r => r.month = month

/-- Dexie `monthlySnapshots.put(row)`: full replace of the row keyed by
`row.month`, inserting when absent. -/
def monthlyPut (tbl : List DbMonthlySnapshot) (row : DbMonthlySnapshot) : List DbMonthlySnapshot :=
  if tbl.any fun r => r.month = row.month then
    tbl.map fun r => if r.month = row.month then row else r
  else tbl ++ [row]

/-- The `yyyy-mm` prefix of a balance date (`date.substring(0, 7)`). -/
def monthOf (b : DbBalance) : String := jsTake b.date 7

/-- Insert a string into the accumulated list unless already present: the
JS `Set` keeps first occurrences in insertion order. -/
def addUnique (l : List String) (s : String) : List String :=
  if s ∈ l then l else l ++ [s]

/-- Insertion step of the default JS `Array.prototype.sort()` (lexicographic
string order). -/
def insertSorted (s : String) : List String → List String
  | [] => [s]
  | t :: ts => if lexLe s.data t.data then s :: t :: ts else t :: insertSorted s ts

/-- Sort a list of strings lexicographically (`Array.from(set).sort()`). -/
def sortStrings (l : List String) : List String :=
  l.foldr insertSorted []

/-- All distinct `yyyy-mm` months appearing in the `balances` table, sorted
ascending; from `getAllMonths` in `db.client.ts`. -/
def getAllMonths (db : DB) : List String :=
  sortStrings (db.balances.foldl (fun acc b => addUnique acc (monthOf b)) [])

/-- One entry of the calculator's `categoryTotals` JS `Map` (insertion order
preserved). -/
structure CategoryTotal where
  categoryId : Nat
  type : AccountType
  total : ℚ
deriving DecidableEq, Repr

/-- Result shape of `calculateSnapshotForMonth`. -/
structure SnapshotData where
  assetsTotal : ℚ
  liabilitiesTotal : ℚ
  netWorth : ℚ
  categoryTotals : List CategoryTotal
deriving DecidableEq, Repr

/-- The calculator's update of its `categoryTotals` map: merge into an
existing entry (keeping its recorded type) or append a new one, as a JS `Map`
does. -/
def categoryTotalsUpdate (m : List CategoryTotal) (k : Nat) (ty : AccountType) (v : ℚ) :
    List CategoryTotal :=
  if m.any fun e => e.categoryId = k then
    m.map fun e => if e.categoryId = k then { e with total := e.total + v } else e
  else m ++ [⟨k, ty, v⟩]

/-- Fold step of `calculateSnapshotForMonth` over one account: skip a falsy
id, fetch the latest (greatest-id) balance dated at or before `monthEnd`,
skip the account when there is none, otherwise add the value to the signed
assets total or the `Math.abs` liabilities total and merge it into the
per-category map. -/
def calcStep (balances : List DbBalance) (monthEnd : String)
    (acc : ℚ × ℚ × List CategoryTotal) (account : DbAccount) : ℚ × ℚ × List CategoryTotal :=
  if account.id = 0 then acc
  else
    match balancesLast balances account.id (fun b => jsLe b.date monthEnd) with
    | none => acc
    | some balance =>
      let value := balance.value
      let assets := if account.type = .asset then acc.1 + value else acc.1
      let liabilities := if account.type = .asset then acc.2.1 else acc.2.1 + |value|
      let totals := categoryTotalsUpdate acc.2.2 account.categoryId account.type value
      (assets, liabilities, totals)

/-- The snapshot calculator, from `calculateSnapshotForMonth` in
`db.client.ts`: fold over all accounts in table order, then report
`netWorth = assetsTotal - liabilitiesTotal`. -/
def calculateSnapshotForMonth (db : DB) (month : String) : SnapshotData :=
  let monthEnd := getMonthEndDate month
  let r := db.accounts.foldl (calcStep db.balances monthEnd) (0, 0, [])
  { assetsTotal := r.1, liabilitiesTotal := r.2.1, netWorth := r.1 - r.2.1,
    categoryTotals := r.2.2 }

/-- Result shape of the auditor's `calculateExpectedSnapshot` (its
`categoryTotals` map carries plain totals). -/
structure ExpectedData where
  assetsTotal : ℚ
  liabilitiesTotal : ℚ
  netWorth : ℚ
  categoryTotals : List (Nat × ℚ)
deriving DecidableEq, Repr

/-- The auditor's update of its `categoryTotals` map:
`set(k, (get(k) || 0) + v)` keeps the entry's position when present and
appends otherwise. -/
def expectedTotalsUpdate (m : List (Nat × ℚ)) (k : Nat) (v : ℚ) : List (Nat × ℚ) :=
  if m.any fun e => e.1 = k then
    m.map fun e => if e.1 = k then (e.1, e.2 + v) else e
  else m ++ [(k, v)]

/-- Fold step of `calculateExpectedSnapshot` over one account; unlike the
calculator it accumulates liabilities with their sign kept. -/
def expectedStep (balances : List DbBalance) (monthEnd : String)
    (acc : ℚ × ℚ × List (Nat × ℚ)) (account : DbAccount) : ℚ × ℚ × List (Nat × ℚ) :=
  if account.id = 0 then acc
  else
    match balancesLast balances account.id (fun b => jsLe b.date monthEnd) with
    | none => acc
    | some balance =>
      let value := balance.value
      let assets := if account.type = .asset then acc.1 + value else acc.1
      let liabilities := if account.type = .asset then acc.2.1 else acc.2.1 + value
      let totals := expectedTotalsUpdate acc.2.2 account.categoryId value
      (assets, liabilities, totals)

/-- The integrity auditor's expected-value recomputation, from
`calculateExpectedSnapshot` in the integrity-check plugin. -/
def calculateExpectedSnapshot (db : DB) (month : String) : ExpectedData :=
  let monthEnd := getMonthEndDate month
  let r := db.accounts.foldl (expectedStep db.balances monthEnd) (0, 0, [])
  { assetsTotal := r.1, liabilitiesTotal := r.2.1, netWorth := r.1 - r.2.1,
    categoryTotals := r.2.2 }

/-- The snapshot writer shared by `generateAllSnapshots` and
`regenerateSnapshotForMonth`: upsert the `MonthlySnapshot` row for the month,
delete every `CategorySnapshot` row of the month, and insert one fresh row per
`categoryTotals` entry, drawing ids from the table's key generator. -/
def writeSnapshotForMonth (db : DB) (month : String) (now : String) : DB :=
  let data := calculateSnapshotForMonth db month
  let monthly := monthlyPut db.monthlySnapshots
    { month := month, assetsTotal := data.assetsTotal,
      liabilitiesTotal := data.liabilitiesTotal, netWorth := data.netWorth, createdAt := now }
  let kept := db.categorySnapshots.filter fun r => r.month ≠ month
  let inserted := data.categoryTotals.foldl
    (fun (st : List DbCategorySnapshot × Nat) e =>
      (st.1 ++ [⟨st.2, month, e.categoryId, e.type, e.total⟩], st.2 + 1))
    ([], db.nextCategorySnapshotId)
  { db with
      monthlySnapshots := monthly,
      categorySnapshots := kept ++ inserted.1,
      nextCategorySnapshotId := inserted.2 }

/-- Full regeneration, from `generateAllSnapshots` in `db.client.ts`: a no-op
when no balance data exists, otherwise calculate and write every month that
has balance data, in one transaction.  The source stamps each write with a
fresh `new Date()`; the model passes one clock reading for the sweep, which
the proved properties never distinguish. -/
def generateAllSnapshots (db : DB) (now : String) : DB :=
  let months := getAllMonths db
  if months.isEmpty then db
  else months.foldl (fun d m => writeSnapshotForMonth d m now) db

/-- Single-month regeneration, from `regenerateSnapshotForMonth` in
`db.client.ts`. -/
def regenerateSnapshotForMonth (db : DB) (month : String) (now : String) : DB :=
  writeSnapshotForMonth db month now

/-- The stored per-category totals map the auditor builds from the month's
`CategorySnapshot` rows: later rows of the iteration overwrite earlier ones.
The iteration follows the `[month+categoryId]` compound index; when the table
holds at most one row per `(month, categoryId)` — the situation every theorem
below addresses — the iteration order is immaterial and the model folds the
rows in table order. -/
def storedCategoryTotals (rows : List DbCategorySnapshot) : List (Nat × ℚ) :=
  rows.foldl (fun m r =>
    if m.any fun e => e.1 = r.categoryId then
      m.map fun e => if e.1 = r.categoryId then (e.1, r.total) else e
    else m ++ [(r.categoryId, r.total)]) []

/-- Association lookup in an accumulated totals map. -/
def totalsLookup (m : List (Nat × ℚ)) (k : Nat) : Option ℚ :=
  (m.find? fun e => e.1 = k).map (·.2)

/-- The auditor's per-month comparison, from `verifySnapshot` in the
integrity-check plugin: a missing stored `MonthlySnapshot` row is a mismatch;
the stored net worth must be within `0.01` of the recomputed one; and every
recomputed per-category total must have a stored row within `0.01`.  Stored
category rows with no recomputed counterpart are never examined. -/
def verifySnapshot (db : DB) (month : String) : Bool :=
  match monthlyGet db.monthlySnapshots month with
  | none => false
  | some stored =>
    let expected := calculateExpectedSnapshot db month
    if 1/100 < |stored.netWorth - expected.netWorth| then false
    else
      let storedTotals := storedCategoryTotals
        (db.categorySnapshots.filter fun r => r.month = month)
      expected.categoryTotals.all fun e =>
        match totalsLookup storedTotals e.1 with
        | none => false
        | some storedTotal => ¬ (1/100 < |storedTotal - e.2|)

/-- The integrity auditor's sweep, from `runIntegrityCheck`: verify every
month that has balance data, repairing each failing month in place via
single-month regeneration before moving on. -/
def runIntegrityCheck (db : DB) (now : String) : DB :=
  (getAllMonths db).foldl
    (fun d m => if verifySnapshot d m then d else regenerateSnapshotForMonth d m now) db

/-- The errors the mutation API throws. -/
inductive DbError where
  | categoryNotFound (name : String)
  | categoryExists (name : String)
  | invalidImport
deriving DecidableEq, Repr

/-- Input record of `addAccount` in `useDatabase.ts`. -/
structure AddAccountData where
  name : String
  bank : String
  category : String
  owner : OwnerType
  initialBalance : ℚ
  notes : Option String
deriving DecidableEq, Repr

/-- Input record of `updateAccount` in `useDatabase.ts`. -/
structure UpdateAccountData where
  name : String
  bank : String
  category : String
  owner : OwnerType
  notes : Option String
deriving DecidableEq, Repr

/-- Account creation, from `addAccount` in `useDatabase.ts`: resolve the
category by name (error when absent or with falsy id), create the account
with the category's type, create the initial balance dated today
(`toISOString().slice(0, 10)` of the same clock), then regenerate all
snapshots.  Returns the new state and the new account id. -/
def addAccount (db : DB) (data : AddAccountData) (now : String) :
    Except DbError (DB × Nat) :=
  match categoriesFirstByName db.categories data.category with
  | none => .error (.categoryNotFound data.category)
  | some category =>
    if category.id = 0 then .error (.categoryNotFound data.category)
    else
      let newAccountId := db.nextAccountId
      let db1 := { db with
        accounts := db.accounts ++
          [⟨newAccountId, data.name, data.bank, category.id, data.owner, category.type,
            now, data.notes⟩],
        nextAccountId := db.nextAccountId + 1,
        balances := db.balances ++
          [⟨db.nextBalanceId, newAccountId, jsTake now 10, data.initialBalance⟩],
        nextBalanceId := db.nextBalanceId + 1 }
      .ok (generateAllSnapshots db1 now, newAccountId)

/-- Account edit, from `updateAccount` in `useDatabase.ts`: resolve the (new)
category by name (error when absent or with falsy id), merge the new fields —
re-deriving `type` from the category — into the row keyed by `accountId`, then
regenerate all snapshots. -/
def updateAccount (db : DB) (accountId : Nat) (data : UpdateAccountData) (now : String) :
    Except DbError DB :=
  match categoriesFirstByName db.categories data.category with
  | none => .error (.categoryNotFound data.category)
  | some category =>
    if category.id = 0 then .error (.categoryNotFound data.category)
    else
      let db1 := { db with
        accounts := db.accounts.map fun a =>
          if a.id = accountId then
            { a with name := data.name, bank := data.bank, categoryId := category.id,
                     owner := data.owner, type := category.type, notes := data.notes }
          else a }
      .ok (generateAllSnapshots db1 now)

/-- Balance recording, from `updateBalance` in `useDatabase.ts`: look up the
first balance row of the account with the exact date; update its value in
place when found, append a fresh row otherwise; then regenerate all
snapshots. -/
def updateBalance (db : DB) (accountId : Nat) (value : ℚ) (date : String) (now : String) : DB :=
  let db1 :=
    match balancesFirst db.balances accountId (fun b => b.date = date) with
    | some existing =>
      { db with balances := db.balances.map fun b =>
          if b.id = existing.id then { b with value := value } else b }
    | none =>
      { db with
        balances := db.balances ++ [⟨db.nextBalanceId, accountId, date, value⟩],
        nextBalanceId := db.nextBalanceId + 1 }
  generateAllSnapshots db1 now

/-- The write phase of `updateCategory`: merge the new name and type into the
category row keyed by `id`, then walk the accounts whose `categoryId` equals
`id` and update each one's row (by its primary key) to the new type, then
regenerate all snapshots. -/
def updateCategoryApply (db : DB) (id : Nat) (name : String) (type : AccountType)
    (now : String) : DB :=
  let categories := db.categories.map fun c =>
    if c.id = id then { c with name := name, type := type } else c
  let accountsWithCategory := db.accounts.filter fun a => a.categoryId = id
  let accounts := accountsWithCategory.foldl
    (fun rows a => rows.map fun r => if r.id = a.id then { r with type := type } else r)
    db.accounts
  generateAllSnapshots { db with categories := categories, accounts := accounts } now

/-- Category edit, from `updateCategory` in `useDatabase.ts`: reject a name
already carried (case-insensitively) by a different category, otherwise write
the category and cascade its type to every referencing account. -/
def updateCategory (db : DB) (id : Nat) (name : String) (type : AccountType)
    (now : String) : Except DbError DB :=
  match categoriesFirstByNameCI db.categories name with
  | some existing =>
    if existing.id ≠ id then .error (.categoryExists name)
    else .ok (updateCategoryApply db id name type now)
  | none => .ok (updateCategoryApply db id name type now)

/-- Untyped JS values, as far as the import path inspects them. -/
inductive JsValue where
  | jundefined
  | jnull
  | jbool (b : Bool)
  | jnum (q : ℚ)
  | jstr (s : String)
  | jarr (elems : List JsValue)
  | jobj (fields : List (String × JsValue))

/-- JS `typeof`. -/
def jsTypeof : JsValue → String
  | .jundefined => "undefined"
  | .jnull => "object"
  | .jbool _ => "boolean"
  | .jnum _ => "number"
  | .jstr _ => "string"
  | .jarr _ => "object"
  | .jobj _ => "object"

/-- JS truthiness (the model carries no `NaN`, which exact rationals cannot
represent). -/
def jsTruthy : JsValue → Bool
  | .jundefined => false
  | .jnull => false
  | .jbool b => b
  | .jnum q => q ≠ 0
  | .jstr s => s ≠ ""
  | .jarr _ => true
  | .jobj _ => true

/-- JS property read `v[k]`, `undefined` off an object (numeric indexing of
arrays is never used by the import path). -/
def jsGetField (v : JsValue) (k : String) : JsValue :=
  match v with
  | .jobj fields => (((fields.find? fun f => f.1 = k).map (·.2)).getD .jundefined)
  | _ => .jundefined

/-- The export-document type guard, from `isDatabaseExport` in
`useDatabase.ts`: the value is a truthy object, its `version` is a number and
its `data` a truthy object. -/
def isDatabaseExport (v : JsValue) : Bool :=
  if ¬ jsTruthy v || jsTypeof v ≠ "object" then false
  else if jsTypeof (jsGetField v "version") ≠ "number" then false
  else if ¬ jsTruthy (jsGetField v "data") || jsTypeof (jsGetField v "data") ≠ "object" then false
  else true

/-- A JS number that is a (whole, nonnegative) record id. -/
def decodeNat : JsValue → Option Nat
  | .jnum q => if q.den = 1 ∧ 0 ≤ q.num then some q.num.toNat else none
  | _ => none

/-- A JS number as an exact rational. -/
def decodeRat : JsValue → Option ℚ
  | .jnum q => some q
  | _ => none

/-- A JS string. -/
def decodeStr : JsValue → Option String
  | .jstr s => some s
  | _ => none

/-- An optional JS string field (absent fields read as `undefined`). -/
def decodeOptStr : JsValue → Option (Option String)
  | .jundefined => some none
  | .jstr s => some (some s)
  | _ => none

/-- Serialized form of an ownership tag. -/
def ownerToStr : OwnerType → String
  | .me => "me"
  | .spouse => "spouse"
  | .joint => "joint"

/-- Parse an ownership tag. -/
def decodeOwner : JsValue → Option OwnerType
  | .jstr "me" => some .me
  | .jstr "spouse" => some .spouse
  | .jstr "joint" => some .joint
  | _ => none

/-- Serialized form of an account polarity. -/
def typeToStr : AccountType → String
  | .asset => "asset"
  | .liability => "liability"

/-- Parse an account polarity. -/
def decodeType : JsValue → Option AccountType
  | .jstr "asset" => some .asset
  | .jstr "liability" => some .liability
  | _ => none

/-- Read an account row out of an imported object. -/
def decodeAccount (v : JsValue) : Option DbAccount := do
  let id ← decodeNat (jsGetField v "id")
  let name ← decodeStr (jsGetField v "name")
  let bank ← decodeStr (jsGetField v "bank")
  let categoryId ← decodeNat (jsGetField v "categoryId")
  let owner ← decodeOwner (jsGetField v "owner")
  let type ← decodeType (jsGetField v "type")
  let createdAt ← decodeStr (jsGetField v "createdAt")
  let notes ← decodeOptStr (jsGetField v "notes")
  pure ⟨id, name, bank, categoryId, owner, type, createdAt, notes⟩

/-- Read a balance row out of an imported object. -/
def decodeBalance (v : JsValue) : Option DbBalance := do
  let id ← decodeNat (jsGetField v "id")
  let accountId ← decodeNat (jsGetField v "accountId")
  let date ← decodeStr (jsGetField v "date")
  let value ← decodeRat (jsGetField v "value")
  pure ⟨id, accountId, date, value⟩

/-- Read a category row out of an imported object. -/
def decodeCategory (v : JsValue) : Option DbCategory := do
  let id ← decodeNat (jsGetField v "id")
  let name ← decodeStr (jsGetField v "name")
  let type ← decodeType (jsGetField v "type")
  pure ⟨id, name, type⟩

/-- Read a transaction row out of an imported object. -/
def decodeTransaction (v : JsValue) : Option DbTransaction := do
  let id ← decodeNat (jsGetField v "id")
  let accountId ← decodeNat (jsGetField v "accountId")
  let date ← decodeStr (jsGetField v "date")
  let amount ← decodeRat (jsGetField v "amount")
  let description ← decodeStr (jsGetField v "description")
  pure ⟨id, accountId, date, amount, description⟩

/-- Read a monthly-snapshot row out of an imported object. -/
def decodeMonthlySnapshot (v : JsValue) : Option DbMonthlySnapshot := do
  let month ← decodeStr (jsGetField v "month")
  let assetsTotal ← decodeRat (jsGetField v "assetsTotal")
  let liabilitiesTotal ← decodeRat (jsGetField v "liabilitiesTotal")
  let netWorth ← decodeRat (jsGetField v "netWorth")
  let createdAt ← decodeStr (jsGetField v "createdAt")
  pure ⟨month, assetsTotal, liabilitiesTotal, netWorth, createdAt⟩

/-- Read a category-snapshot row out of an imported object. -/
def decodeCategorySnapshot (v : JsValue) : Option DbCategorySnapshot := do
  let id ← decodeNat (jsGetField v "id")
  let month ← decodeStr (jsGetField v "month")
  let categoryId ← decodeNat (jsGetField v "categoryId")
  let type ← decodeType (jsGetField v "type")
  let total ← decodeRat (jsGetField v "total")
  pure ⟨id, month, categoryId, type, total⟩

/-- Read a profile row out of an imported object. -/
def decodeProfile (v : JsValue) : Option DbProfile := do
  let id ← decodeNat (jsGetField v "id")
  let userName ← decodeOptStr (jsGetField v "userName")
  let spouseName ← decodeOptStr (jsGetField v "spouseName")
  let userColor ← decodeOptStr (jsGetField v "userColor")
  let spouseColor ← decodeOptStr (jsGetField v "spouseColor")
  pure ⟨id, userName, spouseName, userColor, spouseColor⟩

/-- The rows `bulkAdd(field || [])` stores for one table: the elements of the
array, or nothing when the field is absent.  Objects that do not carry the
declared record shape are not representable in the typed tables and are
dropped; every theorem below exercises only documents whose rows are
well-formed, as an export produces them. -/
def decodeRows (f : JsValue → Option ρ) : JsValue → List ρ
  | .jarr elems => elems.filterMap f
  | _ => []

/-- Advance an IndexedDB key generator past explicitly provided keys: bulk
insertion of a key at or above the generator moves the generator beyond it,
and `clear()` does not reset it. -/
def bumpGen (old : Nat) (ids : List Nat) : Nat :=
  ids.foldl (fun g i => if g ≤ i then i + 1 else g) old

/-- Bulk import, from `importDatabase` in `useDatabase.ts`: reject (throwing
before any write, so the state is returned untouched) any document failing
`isDatabaseExport`; otherwise clear every table, bulk-insert the document's
arrays, and regenerate all snapshots. -/
def importDatabase (db : DB) (json : JsValue) (now : String) : DB × Option DbError :=
  if ¬ isDatabaseExport json then (db, some .invalidImport)
  else
    let d := jsGetField json "data"
    let accounts := decodeRows decodeAccount (jsGetField d "accounts")
    let balances := decodeRows decodeBalance (jsGetField d "balances")
    let categories := decodeRows decodeCategory (jsGetField d "categories")
    let transactions := decodeRows decodeTransaction (jsGetField d "transactions")
    let monthlySnapshots := decodeRows decodeMonthlySnapshot (jsGetField d "snapshots")
    let categorySnapshots := decodeRows decodeCategorySnapshot (jsGetField d "categorySnapshots")
    let profile := decodeRows decodeProfile (jsGetField d "profile")
    let loaded : DB :=
      { accounts := accounts, balances := balances, categories := categories,
        transactions := transactions, monthlySnapshots := monthlySnapshots,
        categorySnapshots := categorySnapshots, profile := profile,
        nextAccountId := bumpGen db.nextAccountId (accounts.map (·.id)),
        nextBalanceId := bumpGen db.nextBalanceId (balances.map (·.id)),
        nextCategorySnapshotId :=
          bumpGen db.nextCategorySnapshotId (categorySnapshots.map (·.id)) }
    (generateAllSnapshots loaded now, none)

/-- Serialized account row, as the export document carries it (optional
fields are omitted when absent, as `JSON.stringify` drops `undefined`). -/
def encodeAccount (a : DbAccount) : JsValue :=
  .jobj ([("id", .jnum a.id), ("name", .jstr a.name), ("bank", .jstr a.bank),
    ("categoryId", .jnum a.categoryId), ("owner", .jstr (ownerToStr a.owner)),
    ("type", .jstr (typeToStr a.type)), ("createdAt", .jstr a.createdAt)] ++
    match a.notes with
    | some n => [("notes", .jstr n)]
    | none => [])

/-- Serialized balance row. -/
def encodeBalance (b : DbBalance) : JsValue :=
  .jobj [("id", .jnum b.id), ("accountId", .jnum b.accountId), ("date", .jstr b.date),
    ("value", .jnum b.value)]

/-- Serialized category row. -/
def encodeCategory (c : DbCategory) : JsValue :=
  .jobj [("id", .jnum c.id), ("name", .jstr c.name), ("type", .jstr (typeToStr c.type))]

/-- Serialized transaction row. -/
def encodeTransaction (t : DbTransaction) : JsValue :=
  .jobj [("id", .jnum t.id), ("accountId", .jnum t.accountId), ("date", .jstr t.date),
    ("amount", .jnum t.amount), ("description", .jstr t.description)]

/-- Serialized monthly-snapshot row. -/
def encodeMonthlySnapshot (s : DbMonthlySnapshot) : JsValue :=
  .jobj [("month", .jstr s.month), ("assetsTotal", .jnum s.assetsTotal),
    ("liabilitiesTotal", .jnum s.liabilitiesTotal), ("netWorth", .jnum s.netWorth),
    ("createdAt", .jstr s.createdAt)]

/-- Serialized category-snapshot row. -/
def encodeCategorySnapshot (s : DbCategorySnapshot) : JsValue :=
  .jobj [("id", .jnum s.id), ("month", .jstr s.month), ("categoryId", .jnum s.categoryId),
    ("type", .jstr (typeToStr s.type)), ("total", .jnum s.total)]

/-- Serialized profile row. -/
def encodeProfile (p : DbProfile) : JsValue :=
  .jobj ([("id", .jnum p.id)] ++
    (match p.userName with | some s => [("userName", .jstr s)] | none => []) ++
    (match p.spouseName with | some s => [("spouseName", .jstr s)] | none => []) ++
    (match p.userColor with | some s => [("userColor", .jstr s)] | none => []) ++
    (match p.spouseColor with | some s => [("spouseColor", .jstr s)] | none => []))

/-- The export document, from `exportDatabase` in `useDatabase.ts`:
`{ version: db.verno, exportedAt, data: { …all seven tables… } }`. -/
def exportDatabase (db : DB) (verno : ℚ) (exportedAt : String) : JsValue :=
  .jobj [("version", .jnum verno), ("exportedAt", .jstr exportedAt),
    ("data", .jobj [
      ("accounts", .jarr (db.accounts.map encodeAccount)),
      ("balances", .jarr (db.balances.map encodeBalance)),
      ("categories", .jarr (db.categories.map encodeCategory)),
      ("transactions", .jarr (db.transactions.map encodeTransaction)),
      ("snapshots", .jarr (db.monthlySnapshots.map encodeMonthlySnapshot)),
      ("categorySnapshots", .jarr (db.categorySnapshots.map encodeCategorySnapshot)),
      ("profile", .jarr (db.profile.map encodeProfile))])]

/-! ### Derived notions the statements below refer to -/

/-- The balance value the calculator attributes to an account for a month:
the value of the selected balance, when the account has an id and such a
balance exists. -/
def contributingValue (db : DB) (month : String) (a : DbAccount) : Option ℚ :=
  if a.id = 0 then none
  else (balancesLast db.balances a.id fun b => jsLe b.date (getMonthEndDate month)).map (·.value)

/-- Per-account summand of the assets total: the signed contributing value of
an asset account. -/
def assetsSummand (db : DB) (month : String) (a : DbAccount) : ℚ :=
  if a.type = .asset then (contributingValue db month a).getD 0 else 0

/-- Per-account summand of the liabilities total as the calculator
accumulates it: the absolute contributing value of a liability account. -/
def liabilitiesSummand (db : DB) (month : String) (a : DbAccount) : ℚ :=
  if a.type = .liability then |(contributingValue db month a).getD 0| else 0

/-- Per-account summand of the auditor's liabilities total: the signed
contributing value of a liability account. -/
def signedLiabilitiesSummand (db : DB) (month : String) (a : DbAccount) : ℚ :=
  if a.type = .liability then (contributingValue db month a).getD 0 else 0

/-- The months of the stored `MonthlySnapshot` rows. -/
def snapshotMonths (db : DB) : List String := db.monthlySnapshots.map (·.month)

/-- A `MonthlySnapshot` row without its generation timestamp. -/
def monthlyFields (r : DbMonthlySnapshot) : String × ℚ × ℚ × ℚ :=
  (r.month, r.assetsTotal, r.liabilitiesTotal, r.netWorth)

/-- A `CategorySnapshot` row without its auto-increment surrogate id. -/
def categoryFields (r : DbCategorySnapshot) : String × Nat × AccountType × ℚ :=
  (r.month, r.categoryId, r.type, r.total)

/-- The stored `CategorySnapshot` rows of one month. -/
def categoryRowsOf (db : DB) (month : String) : List DbCategorySnapshot :=
  db.categorySnapshots.filter fun r => r.month = month

/-- The balance rows stored under one natural key `(accountId, date)`. -/
def balancesForKey (db : DB) (accountId : Nat) (date : String) : List DbBalance :=
  db.balances.filter fun b => b.accountId = accountId && b.date = date

/-- Well-formedness of the `balances` table: primary keys are distinct and
below the key generator, and the natural key `(accountId, date)` is unique. -/
def balancesWf (db : DB) : Prop :=
  (db.balances.map (·.id)).Nodup ∧
  db.balances.Pairwise (fun b1 b2 => ¬ (b1.accountId = b2.accountId ∧ b1.date = b2.date)) ∧
  ∀ b ∈ db.balances, b.id < db.nextBalanceId

instance (db : DB) : Decidable (balancesWf db) := by unfold balancesWf; infer_instance

/-- The account-kind/category-kind invariant: every account's `type` equals
the `type` of the category row it references. -/
def kindInv (db : DB) : Prop :=
  ∀ a ∈ db.accounts, ∃ c ∈ db.categories, c.id = a.categoryId ∧ a.type = c.type

instance (db : DB) : Decidable (kindInv db) := by unfold kindInv; infer_instance

/-! ### Concrete database states used by counterexamples and witnesses -/

/-- A state holding one liability account whose only balance is negative (an
overpaid credit card): category 1, account 1, balance −100 observed
2024-01-10. -/
def overpaidDb : DB :=
  { accounts := [⟨1, "Visa", "BankX", 1, .me, .liability, "2024-01-01T00:00:00.000Z", none⟩],
    balances := [⟨1, 1, "2024-01-10", -100⟩],
    categories := [⟨1, "Credit", .liability⟩],
    transactions := [], monthlySnapshots := [], categorySnapshots := [], profile := [],
    nextAccountId := 2, nextBalanceId := 2, nextCategorySnapshotId := 1 }

/-- A state holding one asset account whose balances were recorded out of
date order: the later-dated observation (2024-01-20, value 200) was inserted
first (id 1), the earlier-dated one (2024-01-05, value 100) backfilled
afterwards (id 2). -/
def backfilledDb : DB :=
  { accounts := [⟨1, "Checking", "BankX", 1, .me, .asset, "2024-01-01T00:00:00.000Z", none⟩],
    balances := [⟨1, 1, "2024-01-20", 200⟩, ⟨2, 1, "2024-01-05", 100⟩],
    categories := [⟨1, "Cash", .asset⟩],
    transactions := [], monthlySnapshots := [], categorySnapshots := [], profile := [],
    nextAccountId := 2, nextBalanceId := 3, nextCategorySnapshotId := 1 }

/-- A state whose `monthlySnapshots` table still holds a row for 2023-12
although every balance of that month has been deleted; the only remaining
balance is in 2024-01. -/
def staleMonthDb : DB :=
  { accounts := [⟨1, "Checking", "BankX", 1, .me, .asset, "2024-01-01T00:00:00.000Z", none⟩],
    balances := [⟨1, 1, "2024-01-10", 100⟩],
    categories := [⟨1, "Cash", .asset⟩],
    transactions := [],
    monthlySnapshots := [⟨"2023-12", 500, 0, 500, "2023-12-31T00:00:00.000Z"⟩],
    categorySnapshots := [], profile := [],
    nextAccountId := 2, nextBalanceId := 2, nextCategorySnapshotId := 1 }

/-- A consistent stored state for 2024-01 that additionally carries a stale
`CategorySnapshot` row for a category (99) with no contributing account. -/
def extraRowDb : DB :=
  { accounts := [⟨1, "Checking", "BankX", 1, .me, .asset, "2024-01-01T00:00:00.000Z", none⟩],
    balances := [⟨1, 1, "2024-01-10", 100⟩],
    categories := [⟨1, "Cash", .asset⟩],
    transactions := [],
    monthlySnapshots := [⟨"2024-01", 100, 0, 100, "2024-01-31T00:00:00.000Z"⟩],
    categorySnapshots := [⟨1, "2024-01", 1, .asset, 100⟩, ⟨2, "2024-01", 99, .asset, 55⟩],
    profile := [],
    nextAccountId := 2, nextBalanceId := 2, nextCategorySnapshotId := 3 }

/-- A two-category state for exercising the category-kind cascade: category 2
("Loan") is about to be re-typed, and account 2 references it. -/
def twoCategoryDb : DB :=
  { accounts := [⟨1, "Checking", "BankX", 1, .me, .asset, "2024-01-01T00:00:00.000Z", none⟩,
                 ⟨2, "CarLoan", "BankY", 2, .me, .asset, "2024-01-01T00:00:00.000Z", none⟩],
    balances := [⟨1, 1, "2024-01-10", 100⟩, ⟨2, 2, "2024-01-10", 50⟩],
    categories := [⟨1, "Cash", .asset⟩, ⟨2, "Loan", .asset⟩],
    transactions := [], monthlySnapshots := [], categorySnapshots := [], profile := [],
    nextAccountId := 3, nextBalanceId := 3, nextCategorySnapshotId := 1 }

/-! ## Lemmas about the calculator fold -/

theorem calcStep_totals (db : DB) (month : String) (acc : ℚ × ℚ × List CategoryTotal)
    (acct : DbAccount) :
    (calcStep db.balances (getMonthEndDate month) acc acct).1 =
        acc.1 + assetsSummand db month acct ∧
      (calcStep db.balances (getMonthEndDate month) acc acct).2.1 =
        acc.2.1 + liabilitiesSummand db month acct := by
  obtain ⟨a0, l0, m0⟩ := acc
  unfold calcStep assetsSummand liabilitiesSummand contributingValue
  by_cases h : acct.id = 0
  · simp [h]
  · simp only [h, if_false]
    cases hb : balancesLast db.balances acct.id fun b => jsLe b.date (getMonthEndDate month) with
    | none => simp
    | some b =>
      cases ht : acct.type with
      | asset => simp [ht]
      | liability => simp [ht]

theorem calc_foldl_totals (db : DB) (month : String) (l : List DbAccount) :
    ∀ (a0 l0 : ℚ) (m0 : List CategoryTotal),
      (l.foldl (calcStep db.balances (getMonthEndDate month)) (a0, l0, m0)).1 =
          a0 + (l.map (assetsSummand db month)).sum ∧
        (l.foldl (calcStep db.balances (getMonthEndDate month)) (a0, l0, m0)).2.1 =
          l0 + (l.map (liabilitiesSummand db month)).sum := by
  induction l with
  | nil => intro a0 l0 m0; simp
  | cons a t ih =>
    intro a0 l0 m0
    simp only [List.foldl_cons, List.map_cons, List.sum_cons]
    obtain ⟨h1, h2⟩ := calcStep_totals db month (a0, l0, m0) a
    obtain ⟨ih1, ih2⟩ := ih (calcStep db.balances (getMonthEndDate month) (a0, l0, m0) a).1
      (calcStep db.balances (getMonthEndDate month) (a0, l0, m0) a).2.1
      (calcStep db.balances (getMonthEndDate month) (a0, l0, m0) a).2.2
    constructor
    · rw [ih1, h1]; ring
    · rw [ih2, h2]; ring

theorem calculateSnapshotForMonth_assetsTotal (db : DB) (month : String) :
    (calculateSnapshotForMonth db month).assetsTotal =
      (db.accounts.map (assetsSummand db month)).sum := by
  unfold calculateSnapshotForMonth
  simpa using (calc_foldl_totals db month db.accounts 0 0 []).1

theorem calculateSnapshotForMonth_liabilitiesTotal (db : DB) (month : String) :
    (calculateSnapshotForMonth db month).liabilitiesTotal =
      (db.accounts.map (liabilitiesSummand db month)).sum := by
  unfold calculateSnapshotForMonth
  simpa using (calc_foldl_totals db month db.accounts 0 0 []).2

theorem calculateSnapshotForMonth_netWorth (db : DB) (month : String) :
    (calculateSnapshotForMonth db month).netWorth =
      (calculateSnapshotForMonth db month).assetsTotal -
        (calculateSnapshotForMonth db month).liabilitiesTotal := by
  unfold calculateSnapshotForMonth
  simp

theorem liabilitiesSummand_nonneg (db : DB) (month : String) (a : DbAccount) :
    0 ≤ liabilitiesSummand db month a := by
  unfold liabilitiesSummand
  split
  · exact abs_nonneg _
  · exact le_refl 0

/-! ## C1 -/

/-- C1 (amended): for every month and database state the calculator
accumulates each liability account's contributing balance into
`liabilitiesTotal` as its absolute value (`Math.abs`), never as a signed raw
value, so the liabilities total is nonnegative; `netWorth` equals
`assetsTotal - liabilitiesTotal`, hence never exceeds `assetsTotal`: a
liability account whose contributing balance is negative still decreases the
computed net worth. -/
theorem calculator_abs_liabilities_netWorth (db : DB) (month : String) :
    (calculateSnapshotForMonth db month).assetsTotal =
        (db.accounts.map (assetsSummand db month)).sum ∧
      (calculateSnapshotForMonth db month).liabilitiesTotal =
        (db.accounts.map (liabilitiesSummand db month)).sum ∧
      (calculateSnapshotForMonth db month).netWorth =
        (calculateSnapshotForMonth db month).assetsTotal -
          (calculateSnapshotForMonth db month).liabilitiesTotal ∧
      0 ≤ (calculateSnapshotForMonth db month).liabilitiesTotal ∧
      (calculateSnapshotForMonth db month).netWorth ≤
        (calculateSnapshotForMonth db month).assetsTotal := by
  have hl := calculateSnapshotForMonth_liabilitiesTotal db month
  have hnn : 0 ≤ (calculateSnapshotForMonth db month).liabilitiesTotal := by
    rw [hl]
    exact List.sum_nonneg fun x hx => by
      obtain ⟨a, _, rfl⟩ := List.mem_map.mp hx
      exact liabilitiesSummand_nonneg db month a
  refine ⟨calculateSnapshotForMonth_assetsTotal db month, hl,
    calculateSnapshotForMonth_netWorth db month, hnn, ?_⟩
  rw [calculateSnapshotForMonth_netWorth db month]
  linarith

/-- C1 counterexample: in a state whose only account is a liability with sole
balance −100, the claim's signed accumulation would make
`liabilitiesTotal = -100` and `netWorth = 0 - (-100) = 100 > 0`; the code
instead stores `liabilitiesTotal = 100` and `netWorth = -100 < 0` — the
negative liability balance decreases the computed net worth. -/
theorem calculator_abs_liabilities_cex :
    (calculateSnapshotForMonth overpaidDb "2024-01").liabilitiesTotal = 100 ∧
      (calculateSnapshotForMonth overpaidDb "2024-01").liabilitiesTotal ≠ -100 ∧
      (calculateSnapshotForMonth overpaidDb "2024-01").netWorth = -100 ∧
      (calculateSnapshotForMonth overpaidDb "2024-01").netWorth < 0 := by
  have : calculateSnapshotForMonth overpaidDb "2024-01" =
      { assetsTotal := 0, liabilitiesTotal := 100, netWorth := 0 - 100,
        categoryTotals := [⟨1, .liability, -100⟩] } := by
    simp +decide [calculateSnapshotForMonth, calcStep, overpaidDb, balancesLast,
      categoryTotalsUpdate]
  rw [this]
  norm_num

/-! ## Lemmas about the auditor's expected-value fold -/

theorem expectedStep_totals (db : DB) (month : String) (acc : ℚ × ℚ × List (Nat × ℚ))
    (acct : DbAccount) :
    (expectedStep db.balances (getMonthEndDate month) acc acct).1 =
        acc.1 + assetsSummand db month acct ∧
      (expectedStep db.balances (getMonthEndDate month) acc acct).2.1 =
        acc.2.1 + signedLiabilitiesSummand db month acct := by
  obtain ⟨a0, l0, m0⟩ := acc
  unfold expectedStep assetsSummand signedLiabilitiesSummand contributingValue
  by_cases h : acct.id = 0
  · simp [h]
  · simp only [h, if_false]
    cases hb : balancesLast db.balances acct.id fun b => jsLe b.date (getMonthEndDate month) with
    | none => simp
    | some b =>
      cases ht : acct.type with
      | asset => simp [ht]
      | liability => simp [ht]

theorem expected_foldl_totals (db : DB) (month : String) (l : List DbAccount) :
    ∀ (a0 l0 : ℚ) (m0 : List (Nat × ℚ)),
      (l.foldl (expectedStep db.balances (getMonthEndDate month)) (a0, l0, m0)).1 =
          a0 + (l.map (assetsSummand db month)).sum ∧
        (l.foldl (expectedStep db.balances (getMonthEndDate month)) (a0, l0, m0)).2.1 =
          l0 + (l.map (signedLiabilitiesSummand db month)).sum := by
  induction l with
  | nil => intro a0 l0 m0; simp
  | cons a t ih =>
    intro a0 l0 m0
    simp only [List.foldl_cons, List.map_cons, List.sum_cons]
    obtain ⟨h1, h2⟩ := expectedStep_totals db month (a0, l0, m0) a
    obtain ⟨ih1, ih2⟩ := ih (expectedStep db.balances (getMonthEndDate month) (a0, l0, m0) a).1
      (expectedStep db.balances (getMonthEndDate month) (a0, l0, m0) a).2.1
      (expectedStep db.balances (getMonthEndDate month) (a0, l0, m0) a).2.2
    constructor
    · rw [ih1, h1]; ring
    · rw [ih2, h2]; ring

theorem calculateExpectedSnapshot_assetsTotal (db : DB) (month : String) :
    (calculateExpectedSnapshot db month).assetsTotal =
      (db.accounts.map (assetsSummand db month)).sum := by
  unfold calculateExpectedSnapshot
  simpa using (expected_foldl_totals db month db.accounts 0 0 []).1

theorem calculateExpectedSnapshot_liabilitiesTotal (db : DB) (month : String) :
    (calculateExpectedSnapshot db month).liabilitiesTotal =
      (db.accounts.map (signedLiabilitiesSummand db month)).sum := by
  unfold calculateExpectedSnapshot
  simpa using (expected_foldl_totals db month db.accounts 0 0 []).2

theorem calculateExpectedSnapshot_netWorth (db : DB) (month : String) :
    (calculateExpectedSnapshot db month).netWorth =
      (calculateExpectedSnapshot db month).assetsTotal -
        (calculateExpectedSnapshot db month).liabilitiesTotal := by
  unfold calculateExpectedSnapshot
  simp

/-! ## C2 -/

/-- C2 (amended): the auditor's recomputation and the writer's calculator
agree on `assetsTotal` for every database state and month; they agree on
`liabilitiesTotal` and `netWorth` whenever every liability account's
contributing balance is nonnegative, so the absolute-value accumulation is
invisible.  (With a negative liability balance the two components disagree —
see the counterexample — so the claimed unconditional equality does not
hold.) -/
theorem auditor_matches_calculator_on_nonneg_liabilities (db : DB) (month : String) :
    (calculateExpectedSnapshot db month).assetsTotal =
        (calculateSnapshotForMonth db month).assetsTotal ∧
      ((∀ a ∈ db.accounts, a.type = .liability →
          0 ≤ (contributingValue db month a).getD 0) →
        (calculateExpectedSnapshot db month).liabilitiesTotal =
            (calculateSnapshotForMonth db month).liabilitiesTotal ∧
          (calculateExpectedSnapshot db month).netWorth =
            (calculateSnapshotForMonth db month).netWorth) := by
  have ha : (calculateExpectedSnapshot db month).assetsTotal =
      (calculateSnapshotForMonth db month).assetsTotal := by
    rw [calculateExpectedSnapshot_assetsTotal, calculateSnapshotForMonth_assetsTotal]
  refine ⟨ha, fun h => ?_⟩
  have hl : (calculateExpectedSnapshot db month).liabilitiesTotal =
      (calculateSnapshotForMonth db month).liabilitiesTotal := by
    rw [calculateExpectedSnapshot_liabilitiesTotal, calculateSnapshotForMonth_liabilitiesTotal]
    congr 1
    apply List.map_congr_left
    intro a ha'
    unfold signedLiabilitiesSummand liabilitiesSummand
    by_cases ht : a.type = .liability
    · simp only [ht, if_true]
      exact (abs_of_nonneg (h a ha' ht)).symm
    · simp [ht]
  refine ⟨hl, ?_⟩
  rw [calculateExpectedSnapshot_netWorth, calculateSnapshotForMonth_netWorth, ha, hl]

/-- C2 counterexample: in the overpaid-liability state the auditor computes
`liabilitiesTotal = -100` (sign kept) while the calculator stores `100`
(absolute value), their net worths differ, and the snapshot just written by
single-month regeneration immediately fails the auditor's verification. -/
theorem auditor_calculator_disagree_cex :
    (calculateExpectedSnapshot overpaidDb "2024-01").liabilitiesTotal = -100 ∧
      (calculateSnapshotForMonth overpaidDb "2024-01").liabilitiesTotal = 100 ∧
      (calculateExpectedSnapshot overpaidDb "2024-01").netWorth ≠
        (calculateSnapshotForMonth overpaidDb "2024-01").netWorth ∧
      verifySnapshot (regenerateSnapshotForMonth overpaidDb "2024-01" "t") "2024-01" = false := by
  have hcalc : calculateSnapshotForMonth overpaidDb "2024-01" =
      { assetsTotal := 0, liabilitiesTotal := 100, netWorth := 0 - 100,
        categoryTotals := [⟨1, .liability, -100⟩] } := by
    simp +decide [calculateSnapshotForMonth, calcStep, overpaidDb, balancesLast,
      categoryTotalsUpdate]
  have hexp : calculateExpectedSnapshot overpaidDb "2024-01" =
      { assetsTotal := 0, liabilitiesTotal := -100, netWorth := 0 - -100,
        categoryTotals := [(1, -100)] } := by
    simp +decide [calculateExpectedSnapshot, expectedStep, overpaidDb, balancesLast,
      expectedTotalsUpdate]
  refine ⟨by rw [hexp], by rw [hcalc], by rw [hexp, hcalc]; norm_num, ?_⟩
  have hreg : regenerateSnapshotForMonth overpaidDb "2024-01" "t" =
      { overpaidDb with
          monthlySnapshots := [⟨"2024-01", 0, 100, 0 - 100, "t"⟩],
          categorySnapshots := [⟨1, "2024-01", 1, .liability, -100⟩],
          nextCategorySnapshotId := 2 } := by
    rw [regenerateSnapshotForMonth, writeSnapshotForMonth, hcalc]
    simp [monthlyPut, overpaidDb]
  rw [hreg]
  simp +decide [verifySnapshot, monthlyGet, overpaidDb, calculateExpectedSnapshot,
    expectedStep, balancesLast, expectedTotalsUpdate, storedCategoryTotals, totalsLookup,
    List.find?]
  norm_num

/-! ## Lemmas about the reverse index scan -/

theorem maxFold_go (l : List DbBalance) :
    ∀ a : DbBalance, ∃ r,
      List.foldl
          (fun best b =>
            match best with
            | none => some b
            | some a => if a.id < b.id then some b else some a)
          (some a) l = some r ∧
        (r = a ∨ r ∈ l) ∧ a.id ≤ r.id ∧ ∀ x ∈ l, x.id ≤ r.id := by
  induction l with
  | nil => intro a; exact ⟨a, rfl, Or.inl rfl, le_refl _, by simp⟩
  | cons b t ih =>
    intro a
    by_cases h : a.id < b.id
    · obtain ⟨r, hr, hmem, hle, hmax⟩ := ih b
      refine ⟨r, by simpa [h] using hr, ?_, le_trans h.le hle, ?_⟩
      · rcases hmem with h' | h'
        · exact Or.inr (by simp [h'])
        · exact Or.inr (List.mem_cons_of_mem _ h')
      · intro x hx
        rcases List.mem_cons.mp hx with rfl | hx'
        · exact hle
        · exact hmax x hx'
    · obtain ⟨r, hr, hmem, hle, hmax⟩ := ih a
      refine ⟨r, by simpa [h] using hr, ?_, hle, ?_⟩
      · rcases hmem with h' | h'
        · exact Or.inl h'
        · exact Or.inr (List.mem_cons_of_mem _ h')
      · intro x hx
        rcases List.mem_cons.mp hx with rfl | hx'
        · exact le_trans (Nat.le_of_not_lt h) hle
        · exact hmax x hx'

theorem maxFold_none_iff (l : List DbBalance) :
    List.foldl
        (fun best b =>
          match best with
          | none => some b
          | some a => if a.id < b.id then some b else some a)
        none l = none ↔ l = [] := by
  cases l with
  | nil => simp
  | cons b t =>
    simp only [List.foldl_cons]
    obtain ⟨r, hr, -, -, -⟩ := maxFold_go t b
    simp [hr]

theorem balancesLast_spec (bs : List DbBalance) (aid : Nat) (p : DbBalance → Bool) :
    (∀ b, balancesLast bs aid p = some b →
        b ∈ bs ∧ b.accountId = aid ∧ p b = true ∧
          ∀ b' ∈ bs, b'.accountId = aid → p b' = true → b'.id ≤ b.id) ∧
      (balancesLast bs aid p = none → ∀ b' ∈ bs, b'.accountId = aid → p b' = false) := by
  constructor
  · intro b hb
    unfold balancesLast at hb
    have key : b ∈ (bs.filter fun x => x.accountId = aid && p x) ∧
        ∀ x ∈ bs.filter (fun x => x.accountId = aid && p x), x.id ≤ b.id := by
      cases hl : bs.filter fun x => x.accountId = aid && p x with
      | nil => rw [hl] at hb; simp at hb
      | cons c t =>
        rw [hl] at hb
        simp only [List.foldl_cons] at hb
        obtain ⟨r, hr, hmemr, hle, hmax⟩ := maxFold_go t c
        rw [hr] at hb
        obtain rfl := Option.some_injective _ hb
        refine ⟨?_, ?_⟩
        · rcases hmemr with rfl | h'
          · simp
          · exact List.mem_cons_of_mem _ h'
        · intro x hx
          rcases List.mem_cons.mp hx with rfl | hx'
          · exact hle
          · exact hmax x hx'
    have hprop := List.mem_filter.mp key.1
    have hacc : b.accountId = aid ∧ p b = true := by
      have := hprop.2
      simpa [Bool.and_eq_true, decide_eq_true_eq] using this
    refine ⟨hprop.1, hacc.1, hacc.2, ?_⟩
    intro b' hb' haid hp
    exact key.2 b' (List.mem_filter.mpr ⟨hb', by simp [haid, hp]⟩)
  · intro hnone b' hb' haid
    unfold balancesLast at hnone
    by_contra hp
    have hp' : p b' = true := by
      cases h : p b' with
      | true => rfl
      | false => exact absurd h hp
    have hmem' : b' ∈ bs.filter fun x => x.accountId = aid && p x :=
      List.mem_filter.mpr ⟨hb', by simp [haid, hp']⟩
    rw [maxFold_none_iff] at hnone
    rw [hnone] at hmem'
    simp at hmem'

theorem calcStep_skip (bals : List DbBalance) (monthEnd : String) (acc : ℚ × ℚ × List CategoryTotal)
    (a : DbAccount) (h : a.id = 0 ∨ balancesLast bals a.id (fun b => jsLe b.date monthEnd) = none) :
    calcStep bals monthEnd acc a = acc := by
  unfold calcStep
  rcases h with h | h
  · simp [h]
  · by_cases h0 : a.id = 0
    · simp [h0]
    · simp [h0, h]

/-! ## C3 -/

/-- C3 (amended): for every account and target month, the balance value the
calculator attributes to the account is the matching balance with the
greatest primary key — the most recently inserted row among the account's
balances with `date <= monthEnd` — not necessarily the one with the greatest
date (the two coincide only when balances were inserted in chronological
order).  Month ends account for variable month lengths and leap years.  An
account with no balance on or before month-end is skipped entirely and
contributes nothing to the month's totals. -/
theorem calculator_selects_greatest_id_balance (db : DB) (month : String) (a : DbAccount) :
    (∀ b, balancesLast db.balances a.id (fun x => jsLe x.date (getMonthEndDate month)) = some b →
        b ∈ db.balances ∧ b.accountId = a.id ∧ jsLe b.date (getMonthEndDate month) = true ∧
          ∀ b' ∈ db.balances, b'.accountId = a.id →
            jsLe b'.date (getMonthEndDate month) = true → b'.id ≤ b.id) ∧
      (balancesLast db.balances a.id (fun x => jsLe x.date (getMonthEndDate month)) = none →
        ∀ b' ∈ db.balances, b'.accountId = a.id →
          jsLe b'.date (getMonthEndDate month) = false) ∧
      (∀ l1 l2, db.accounts = l1 ++ a :: l2 → contributingValue db month a = none →
        calculateSnapshotForMonth db month =
          calculateSnapshotForMonth { db with accounts := l1 ++ l2 } month) ∧
      getMonthEndDate "2024-02" = "2024-02-29" ∧ getMonthEndDate "2023-02" = "2023-02-28" ∧
      getMonthEndDate "2024-04" = "2024-04-30" ∧ getMonthEndDate "2024-12" = "2024-12-31" := by
  obtain ⟨hsome, hnone⟩ :=
    balancesLast_spec db.balances a.id fun x => jsLe x.date (getMonthEndDate month)
  refine ⟨hsome, hnone, ?_, by decide, by decide, by decide, by decide⟩
  intro l1 l2 heq hcv
  have hskip : a.id = 0 ∨
      balancesLast db.balances a.id (fun b => jsLe b.date (getMonthEndDate month)) = none := by
    unfold contributingValue at hcv
    by_cases h0 : a.id = 0
    · exact Or.inl h0
    · right
      rw [if_neg h0] at hcv
      exact Option.map_eq_none.mp hcv
  unfold calculateSnapshotForMonth
  simp only [heq]
  rw [List.foldl_append, List.foldl_append, List.foldl_cons,
    calcStep_skip db.balances (getMonthEndDate month) _ a hskip]

/-- C3 counterexample: with the later-dated balance (2024-01-20, value 200)
inserted before a backfilled earlier-dated one (2024-01-05, value 100), the
January 2024 lookup selects the backfilled row — the greatest id — although a
matching balance with a strictly greater date exists, and the month's
`assetsTotal` is 100, not the 200 the greatest-date rule of the claim would
produce. -/
theorem calculator_greatest_date_cex :
    balancesLast backfilledDb.balances 1 (fun b => jsLe b.date (getMonthEndDate "2024-01")) =
        some ⟨2, 1, "2024-01-05", 100⟩ ∧
      (⟨1, 1, "2024-01-20", 200⟩ : DbBalance) ∈ backfilledDb.balances ∧
      jsLe "2024-01-20" (getMonthEndDate "2024-01") = true ∧
      lexLe "2024-01-05".data "2024-01-20".data = true ∧
      "2024-01-05" ≠ "2024-01-20" ∧
      (calculateSnapshotForMonth backfilledDb "2024-01").assetsTotal = 100 ∧
      (calculateSnapshotForMonth backfilledDb "2024-01").assetsTotal ≠ 200 := by
  refine ⟨by decide, by decide, by decide, by decide, by decide, ?_, ?_⟩ <;>
    simp +decide [calculateSnapshotForMonth, calcStep, backfilledDb, balancesLast,
      categoryTotalsUpdate]

/-! ## Month enumeration lemmas -/

theorem insertSorted_perm (s : String) (l : List String) : (insertSorted s l).Perm (s :: l) := by
  induction l with
  | nil => simp [insertSorted]
  | cons t ts ih =>
    unfold insertSorted
    split
    · exact List.Perm.refl _
    · exact ((ih.cons t).trans (List.Perm.swap s t ts))

theorem sortStrings_perm (l : List String) : (sortStrings l).Perm l := by
  induction l with
  | nil => simp [sortStrings]
  | cons t ts ih =>
    unfold sortStrings
    simp only [List.foldr_cons]
    exact (insertSorted_perm t _).trans (List.Perm.cons t ih)

theorem mem_sortStrings (x : String) (l : List String) : x ∈ sortStrings l ↔ x ∈ l :=
  (sortStrings_perm l).mem_iff

theorem sortStrings_nodup (l : List String) (h : l.Nodup) : (sortStrings l).Nodup :=
  (sortStrings_perm l).nodup_iff.mpr h

theorem addUnique_fold_mem (l : List DbBalance) :
    ∀ (acc : List String) (x : String),
      x ∈ l.foldl (fun a b => addUnique a (monthOf b)) acc ↔
        x ∈ acc ∨ ∃ b ∈ l, monthOf b = x := by
  induction l with
  | nil => intro acc x; simp
  | cons b t ih =>
    intro acc x
    simp only [List.foldl_cons]
    rw [ih]
    unfold addUnique
    constructor
    · rintro (hx | hb)
      · split at hx
        · exact Or.inl hx
        · rcases List.mem_append.mp hx with h | h
          · exact Or.inl h
          · exact Or.inr ⟨b, List.mem_cons_self b t, (List.mem_singleton.mp h).symm⟩
      · obtain ⟨b', hb', he⟩ := hb
        exact Or.inr ⟨b', List.mem_cons_of_mem _ hb', he⟩
    · rintro (hx | ⟨b', hb', he⟩)
      · left
        split
        · exact hx
        · exact List.mem_append.mpr (Or.inl hx)
      · rcases List.mem_cons.mp hb' with rfl | h'
        · left
          split
          · next hmem => exact he ▸ hmem
          · exact List.mem_append.mpr (Or.inr (by simp [he]))
        · exact Or.inr ⟨b', h', he⟩

theorem addUnique_fold_nodup (l : List DbBalance) :
    ∀ acc : List String, acc.Nodup →
      (l.foldl (fun a b => addUnique a (monthOf b)) acc).Nodup := by
  induction l with
  | nil => intro acc h; simpa using h
  | cons b t ih =>
    intro acc h
    simp only [List.foldl_cons]
    apply ih
    unfold addUnique
    split
    · exact h
    · next hmem => exact List.Nodup.append h (by simp) (by simpa using fun hx => hmem hx)

theorem getAllMonths_mem (db : DB) (x : String) :
    x ∈ getAllMonths db ↔ ∃ b ∈ db.balances, monthOf b = x := by
  unfold getAllMonths
  rw [mem_sortStrings, addUnique_fold_mem]
  simp

theorem getAllMonths_nodup (db : DB) : (getAllMonths db).Nodup :=
  sortStrings_nodup _ (addUnique_fold_nodup db.balances [] (by simp))

/-! ## Writer projection lemmas -/

theorem writeSnapshotForMonth_accounts (db : DB) (m now : String) :
    (writeSnapshotForMonth db m now).accounts = db.accounts := rfl

theorem writeSnapshotForMonth_balances (db : DB) (m now : String) :
    (writeSnapshotForMonth db m now).balances = db.balances := rfl

theorem writeSnapshotForMonth_categories (db : DB) (m now : String) :
    (writeSnapshotForMonth db m now).categories = db.categories := rfl

theorem writeSnapshotForMonth_nextBalanceId (db : DB) (m now : String) :
    (writeSnapshotForMonth db m now).nextBalanceId = db.nextBalanceId := rfl

theorem calculateSnapshotForMonth_congr (d db : DB) (m : String)
    (h1 : d.accounts = db.accounts) (h2 : d.balances = db.balances) :
    calculateSnapshotForMonth d m = calculateSnapshotForMonth db m := by
  unfold calculateSnapshotForMonth
  rw [h1, h2]

theorem calculateExpectedSnapshot_congr (d db : DB) (m : String)
    (h1 : d.accounts = db.accounts) (h2 : d.balances = db.balances) :
    calculateExpectedSnapshot d m = calculateExpectedSnapshot db m := by
  unfold calculateExpectedSnapshot
  rw [h1, h2]

theorem generate_fold_accounts (now : String) (months : List String) :
    ∀ d : DB, (months.foldl (fun d m => writeSnapshotForMonth d m now) d).accounts = d.accounts := by
  induction months with
  | nil => intro d; rfl
  | cons m t ih => intro d; simp only [List.foldl_cons]; rw [ih]; rfl

theorem generate_fold_balances (now : String) (months : List String) :
    ∀ d : DB, (months.foldl (fun d m => writeSnapshotForMonth d m now) d).balances = d.balances := by
  induction months with
  | nil => intro d; rfl
  | cons m t ih => intro d; simp only [List.foldl_cons]; rw [ih]; rfl

theorem generate_fold_categories (now : String) (months : List String) :
    ∀ d : DB, (months.foldl (fun d m => writeSnapshotForMonth d m now) d).categories =
      d.categories := by
  induction months with
  | nil => intro d; rfl
  | cons m t ih => intro d; simp only [List.foldl_cons]; rw [ih]; rfl

theorem generate_fold_nextBalanceId (now : String) (months : List String) :
    ∀ d : DB, (months.foldl (fun d m => writeSnapshotForMonth d m now) d).nextBalanceId =
      d.nextBalanceId := by
  induction months with
  | nil => intro d; rfl
  | cons m t ih => intro d; simp only [List.foldl_cons]; rw [ih]; rfl

theorem generateAllSnapshots_accounts (db : DB) (now : String) :
    (generateAllSnapshots db now).accounts = db.accounts := by
  simp only [generateAllSnapshots]
  split
  · rfl
  · exact generate_fold_accounts now (getAllMonths db) db

theorem generateAllSnapshots_balances (db : DB) (now : String) :
    (generateAllSnapshots db now).balances = db.balances := by
  simp only [generateAllSnapshots]
  split
  · rfl
  · exact generate_fold_balances now (getAllMonths db) db

theorem generateAllSnapshots_categories (db : DB) (now : String) :
    (generateAllSnapshots db now).categories = db.categories := by
  simp only [generateAllSnapshots]
  split
  · rfl
  · exact generate_fold_categories now (getAllMonths db) db

theorem generateAllSnapshots_nextBalanceId (db : DB) (now : String) :
    (generateAllSnapshots db now).nextBalanceId = db.nextBalanceId := by
  simp only [generateAllSnapshots]
  split
  · rfl
  · exact generate_fold_nextBalanceId now (getAllMonths db) db

/-! ## Lemmas about `monthlyPut` -/

theorem monthlyPut_month_unique (tbl : List DbMonthlySnapshot) (row : DbMonthlySnapshot) :
    ∀ x ∈ monthlyPut tbl row, x.month = row.month → x = row := by
  intro x hx hm
  unfold monthlyPut at hx
  split at hx
  · obtain ⟨r, hr, hfx⟩ := List.mem_map.mp hx
    by_cases h : r.month = row.month
    · rw [if_pos h] at hfx; exact hfx.symm
    · rw [if_neg h] at hfx; exact absurd (hfx ▸ hm) h
  · next hany =>
    rcases List.mem_append.mp hx with h | h
    · exact absurd (List.any_eq_true.mpr ⟨x, h, by simpa using hm⟩) hany
    · exact List.mem_singleton.mp h

theorem monthlyPut_presence (tbl : List DbMonthlySnapshot) (row : DbMonthlySnapshot) :
    ∃ x ∈ monthlyPut tbl row, x.month = row.month := by
  unfold monthlyPut
  split
  · next hany =>
    obtain ⟨r, hr, hm⟩ := List.any_eq_true.mp hany
    refine ⟨row, List.mem_map.mpr ⟨r, hr, ?_⟩, rfl⟩
    simp only [decide_eq_true_eq] at hm
    rw [if_pos hm]
  · exact ⟨row, List.mem_append.mpr (Or.inr (by simp)), rfl⟩

theorem monthlyPut_preserves_presence (tbl : List DbMonthlySnapshot) (row : DbMonthlySnapshot)
    (m : String) (h : ∃ x ∈ tbl, x.month = m) : ∃ x ∈ monthlyPut tbl row, x.month = m := by
  obtain ⟨x, hx, hm⟩ := h
  unfold monthlyPut
  split
  · by_cases hxr : x.month = row.month
    · exact ⟨row, List.mem_map.mpr ⟨x, hx, by rw [if_pos hxr]⟩, by rw [← hm, hxr]⟩
    · exact ⟨x, List.mem_map.mpr ⟨x, hx, by rw [if_neg hxr]⟩, hm⟩
  · exact ⟨x, List.mem_append.mpr (Or.inl hx), hm⟩

theorem monthlyPut_filter_out (tbl : List DbMonthlySnapshot) (row : DbMonthlySnapshot)
    (p : DbMonthlySnapshot → Bool) (hpres : ∀ r : DbMonthlySnapshot, r.month = row.month → p r = false) :
    (monthlyPut tbl row).filter p = tbl.filter p := by
  unfold monthlyPut
  by_cases hany : (tbl.any fun r => r.month = row.month) = true
  · rw [if_pos hany]
    clear hany
    induction tbl with
    | nil => rfl
    | cons r t ih =>
      simp only [List.map_cons, List.filter_cons]
      by_cases h : r.month = row.month
      · rw [if_pos h, hpres row rfl, hpres r h]
        simpa using ih
      · rw [if_neg h]
        cases hp : p r with
        | true => simp [hp, ih]
        | false => simp [hp, ih]
  · rw [if_neg hany, List.filter_append]
    simp [hpres row rfl]

/-! ## Lemmas about the inserted category rows -/

theorem insertRows_fields (month : String) (l : List CategoryTotal) :
    ∀ (acc : List DbCategorySnapshot) (n : Nat),
      ((l.foldl
          (fun (st : List DbCategorySnapshot × Nat) e =>
            (st.1 ++ [⟨st.2, month, e.categoryId, e.type, e.total⟩], st.2 + 1))
          (acc, n)).1).map categoryFields =
        acc.map categoryFields ++ l.map fun e => (month, e.categoryId, e.type, e.total) := by
  induction l with
  | nil => intro acc n; simp
  | cons e t ih =>
    intro acc n
    simp only [List.foldl_cons, List.map_cons]
    rw [ih]
    simp [categoryFields]

theorem insertRows_month (month : String) (l : List CategoryTotal) :
    ∀ (acc : List DbCategorySnapshot) (n : Nat),
      ∀ x ∈ (l.foldl
          (fun (st : List DbCategorySnapshot × Nat) e =>
            (st.1 ++ [⟨st.2, month, e.categoryId, e.type, e.total⟩], st.2 + 1))
          (acc, n)).1, x ∈ acc ∨ x.month = month := by
  induction l with
  | nil => intro acc n x hx; exact Or.inl hx
  | cons e t ih =>
    intro acc n x hx
    rcases ih _ _ x hx with h | h
    · rcases List.mem_append.mp h with h' | h'
      · exact Or.inl h'
      · exact Or.inr (by rw [List.mem_singleton.mp h'])
    · exact Or.inr h

theorem categoryRowsOf_write_self (db : DB) (m now : String) :
    (categoryRowsOf (writeSnapshotForMonth db m now) m).map categoryFields =
      (calculateSnapshotForMonth db m).categoryTotals.map
        fun e => (m, e.categoryId, e.type, e.total) := by
  unfold categoryRowsOf writeSnapshotForMonth
  simp only
  rw [List.filter_append]
  have h1 : ((db.categorySnapshots.filter fun r => r.month ≠ m).filter
      fun r => r.month = m) = [] := by
    rw [List.filter_eq_nil_iff]
    intro a ha
    have := (List.mem_filter.mp ha).2
    simp only [ne_eq, decide_not, Bool.not_eq_eq_eq_not, Bool.not_true, decide_eq_false_iff_not]
      at this
    simp [this]
  rw [h1, List.nil_append]
  have h2 : (((calculateSnapshotForMonth db m).categoryTotals.foldl
      (fun (st : List DbCategorySnapshot × Nat) e =>
        (st.1 ++ [⟨st.2, m, e.categoryId, e.type, e.total⟩], st.2 + 1))
      ([], db.nextCategorySnapshotId)).1).filter (fun r => r.month = m) =
      ((calculateSnapshotForMonth db m).categoryTotals.foldl
      (fun (st : List DbCategorySnapshot × Nat) e =>
        (st.1 ++ [⟨st.2, m, e.categoryId, e.type, e.total⟩], st.2 + 1))
      ([], db.nextCategorySnapshotId)).1 := by
    rw [List.filter_eq_self]
    intro a ha
    rcases insertRows_month m _ _ _ a ha with h | h
    · simp at h
    · simp [h]
  rw [h2]
  simpa using insertRows_fields m (calculateSnapshotForMonth db m).categoryTotals []
    db.nextCategorySnapshotId

theorem filter_month_of_filter_ne (t : List DbCategorySnapshot) (m m' : String) (h : m' ≠ m) :
    (t.filter fun r => r.month ≠ m).filter (fun r => r.month = m') =
      t.filter fun r => r.month = m' := by
  induction t with
  | nil => rfl
  | cons r tl ih =>
    by_cases hrm : r.month = m
    · have hr' : ¬ r.month = m' := by rw [hrm]; exact fun hh => h hh.symm
      rw [List.filter_cons, List.filter_cons, if_neg (by simp [hrm]), if_neg (by simp [hr'])]
      exact ih
    · rw [List.filter_cons, if_pos (by simp [hrm]), List.filter_cons, List.filter_cons]
      by_cases hr : r.month = m'
      · rw [if_pos (by simp [hr]), if_pos (by simp [hr]), ih]
      · rw [if_neg (by simp [hr]), if_neg (by simp [hr]), ih]

theorem categoryRowsOf_write_other (db : DB) (m now m' : String) (h : m' ≠ m) :
    categoryRowsOf (writeSnapshotForMonth db m now) m' = categoryRowsOf db m' := by
  unfold categoryRowsOf writeSnapshotForMonth
  simp only
  rw [List.filter_append]
  have h2 : (((calculateSnapshotForMonth db m).categoryTotals.foldl
      (fun (st : List DbCategorySnapshot × Nat) e =>
        (st.1 ++ [⟨st.2, m, e.categoryId, e.type, e.total⟩], st.2 + 1))
      ([], db.nextCategorySnapshotId)).1).filter (fun r => r.month = m') = [] := by
    rw [List.filter_eq_nil_iff]
    intro a ha
    rcases insertRows_month m _ _ _ a ha with h' | h'
    · simp at h'
    · have : ¬ (a.month = m') := by rw [h']; exact fun hh => h hh.symm
      simp [this]
  rw [h2, List.append_nil]
  exact filter_month_of_filter_ne db.categorySnapshots m m' h

theorem monthlyGet_put_self (tbl : List DbMonthlySnapshot) (row : DbMonthlySnapshot) :
    monthlyGet (monthlyPut tbl row) row.month = some row := by
  unfold monthlyGet monthlyPut
  by_cases hany : tbl.any (fun r => r.month = row.month) = true
  · rw [if_pos hany]
    induction tbl with
    | nil => simp at hany
    | cons r t ih =>
      by_cases h : r.month = row.month
      · simp [h]
      · have ht : (t.any fun r => decide (r.month = row.month)) = true := by
          simp only [List.any_cons, Bool.or_eq_true, decide_eq_true_eq] at hany
          rcases hany with h' | h'
          · exact absurd h' h
          · simpa using h'
        simpa [List.find?, h] using ih ht
  · rw [if_neg hany]
    simp only [Bool.not_eq_true, List.any_eq_false, decide_eq_true_eq] at hany
    induction tbl with
    | nil => simp [List.find?]
    | cons r t ih =>
      have hr : ¬ r.month = row.month := by simpa using hany r (List.mem_cons_self r t)
      simpa [List.find?, hr] using ih fun x hx => hany x (List.mem_cons_of_mem r hx)

theorem monthlyGet_write_self (db : DB) (m now : String) :
    monthlyGet (writeSnapshotForMonth db m now).monthlySnapshots m =
      some ⟨m, (calculateSnapshotForMonth db m).assetsTotal,
        (calculateSnapshotForMonth db m).liabilitiesTotal,
        (calculateSnapshotForMonth db m).netWorth, now⟩ :=
  monthlyGet_put_self db.monthlySnapshots
    ⟨m, (calculateSnapshotForMonth db m).assetsTotal,
      (calculateSnapshotForMonth db m).liabilitiesTotal,
      (calculateSnapshotForMonth db m).netWorth, now⟩

theorem monthlyGet_put_other (tbl : List DbMonthlySnapshot) (row : DbMonthlySnapshot)
    (m' : String) (h : m' ≠ row.month) :
    monthlyGet (monthlyPut tbl row) m' = monthlyGet tbl m' := by
  unfold monthlyGet monthlyPut
  by_cases hany : (tbl.any fun r => r.month = row.month) = true
  · rw [if_pos hany]
    clear hany
    induction tbl with
    | nil => rfl
    | cons r t ih =>
      by_cases hr : r.month = row.month
      · have h1 : ¬ row.month = m' := fun hh => h hh.symm
        have h2 : ¬ r.month = m' := by rw [hr]; exact h1
        simpa [List.find?, hr, h1, h2] using ih
      · by_cases hm : r.month = m'
        · simp [List.find?, hr, hm, h]
        · simpa [List.find?, hr, hm] using ih
  · rw [if_neg hany, List.find?_append]
    have hrm : ¬ row.month = m' := fun hh => h hh.symm
    cases hf : tbl.find? fun r => decide (r.month = m') with
    | some r => simp [hf]
    | none => simp [hf, List.find?, hrm]

theorem monthlyGet_write_other (db : DB) (m now m' : String) (h : m' ≠ m) :
    monthlyGet (writeSnapshotForMonth db m now).monthlySnapshots m' =
      monthlyGet db.monthlySnapshots m' := by
  unfold writeSnapshotForMonth
  simp only
  exact monthlyGet_put_other db.monthlySnapshots _ m' h

/-! ## Preservation along the orchestrator's month sweep -/

theorem fold_categoryRowsOf_not_mem (now : String) (months : List String) (m : String)
    (hm : m ∉ months) :
    ∀ d : DB, categoryRowsOf (months.foldl (fun d m' => writeSnapshotForMonth d m' now) d) m =
      categoryRowsOf d m := by
  induction months with
  | nil => intro d; rfl
  | cons mh mt ih =>
    intro d
    simp only [List.foldl_cons]
    rw [ih (fun h => hm (List.mem_cons_of_mem mh h))]
    exact categoryRowsOf_write_other d mh now m fun h => hm (h ▸ List.mem_cons_self mh mt)

theorem fold_monthlyGet_not_mem (now : String) (months : List String) (m : String)
    (hm : m ∉ months) :
    ∀ d : DB,
      monthlyGet (months.foldl (fun d m' => writeSnapshotForMonth d m' now) d).monthlySnapshots m =
        monthlyGet d.monthlySnapshots m := by
  induction months with
  | nil => intro d; rfl
  | cons mh mt ih =>
    intro d
    simp only [List.foldl_cons]
    rw [ih (fun h => hm (List.mem_cons_of_mem mh h))]
    exact monthlyGet_write_other d mh now m fun h => hm (h ▸ List.mem_cons_self mh mt)

theorem fold_monthly_presence_preserved (now : String) (months : List String) (m : String) :
    ∀ d : DB, (∃ r ∈ d.monthlySnapshots, r.month = m) →
      ∃ r ∈ (months.foldl (fun d m' => writeSnapshotForMonth d m' now) d).monthlySnapshots,
        r.month = m := by
  induction months with
  | nil => intro d h; exact h
  | cons mh mt ih =>
    intro d h
    simp only [List.foldl_cons]
    exact ih _ (monthlyPut_preserves_presence d.monthlySnapshots _ m h)

theorem fold_monthly_presence_of_mem (now : String) (months : List String) (m : String)
    (hm : m ∈ months) :
    ∀ d : DB,
      ∃ r ∈ (months.foldl (fun d m' => writeSnapshotForMonth d m' now) d).monthlySnapshots,
        r.month = m := by
  induction months with
  | nil => simp at hm
  | cons mh mt ih =>
    intro d
    simp only [List.foldl_cons]
    rcases List.mem_cons.mp hm with rfl | hmt
    · exact fold_monthly_presence_preserved now mt m _ (monthlyPut_presence d.monthlySnapshots _)
    · exact ih hmt _

theorem fold_monthly_filter_out (now : String) (months : List String)
    (p : DbMonthlySnapshot → Bool)
    (hp : ∀ m ∈ months, ∀ r : DbMonthlySnapshot, r.month = m → p r = false) :
    ∀ d : DB,
      ((months.foldl (fun d m' => writeSnapshotForMonth d m' now) d).monthlySnapshots).filter p =
        d.monthlySnapshots.filter p := by
  induction months with
  | nil => intro d; rfl
  | cons mh mt ih =>
    intro d
    simp only [List.foldl_cons]
    rw [ih fun m hm => hp m (List.mem_cons_of_mem mh hm)]
    exact monthlyPut_filter_out d.monthlySnapshots _ p
      (hp mh (List.mem_cons_self mh mt))

theorem fold_categoryRows_processed (db : DB) (now : String) (months : List String)
    (hnd : months.Nodup) :
    ∀ d : DB, d.accounts = db.accounts → d.balances = db.balances →
      ∀ m ∈ months,
        (categoryRowsOf (months.foldl (fun x m' => writeSnapshotForMonth x m' now) d) m).map
            categoryFields =
          (calculateSnapshotForMonth db m).categoryTotals.map
            fun e => (m, e.categoryId, e.type, e.total) := by
  induction months with
  | nil => intro d _ _ m hm; simp at hm
  | cons mh mt ih =>
    intro d hacc hbal m hm
    simp only [List.foldl_cons]
    rcases List.mem_cons.mp hm with rfl | hmt
    · rw [fold_categoryRowsOf_not_mem now mt m (List.nodup_cons.mp hnd).1,
        categoryRowsOf_write_self, calculateSnapshotForMonth_congr d db m hacc hbal]
    · exact ih (List.nodup_cons.mp hnd).2 _
        (by rw [writeSnapshotForMonth_accounts, hacc])
        (by rw [writeSnapshotForMonth_balances, hbal]) m hmt

theorem fold_monthlyGet_processed (db : DB) (now : String) (months : List String)
    (hnd : months.Nodup) :
    ∀ d : DB, d.accounts = db.accounts → d.balances = db.balances →
      ∀ m ∈ months,
        monthlyGet
            (months.foldl (fun x m' => writeSnapshotForMonth x m' now) d).monthlySnapshots m =
          some ⟨m, (calculateSnapshotForMonth db m).assetsTotal,
            (calculateSnapshotForMonth db m).liabilitiesTotal,
            (calculateSnapshotForMonth db m).netWorth, now⟩ := by
  induction months with
  | nil => intro d _ _ m hm; simp at hm
  | cons mh mt ih =>
    intro d hacc hbal m hm
    simp only [List.foldl_cons]
    rcases List.mem_cons.mp hm with rfl | hmt
    · rw [fold_monthlyGet_not_mem now mt m (List.nodup_cons.mp hnd).1,
        monthlyGet_write_self, calculateSnapshotForMonth_congr d db m hacc hbal]
    · exact ih (List.nodup_cons.mp hnd).2 _
        (by rw [writeSnapshotForMonth_accounts, hacc])
        (by rw [writeSnapshotForMonth_balances, hbal]) m hmt

/-! ## C4 -/

/-- C4 (amended): after a full regeneration run, a `MonthlySnapshot` row
exists for every distinct `yyyy-mm` prefix occurring in the `Balance` table —
but rows for months no longer present in the balance data are not deleted:
the regeneration only upserts, so exactly the pre-existing rows for such
months survive. -/
theorem generate_covers_all_balance_months (db : DB) (now : String) :
    (∀ m ∈ getAllMonths db,
        ∃ r ∈ (generateAllSnapshots db now).monthlySnapshots, r.month = m) ∧
      ((generateAllSnapshots db now).monthlySnapshots.filter
          (fun r => !((getAllMonths db).contains r.month)) =
        db.monthlySnapshots.filter fun r => !((getAllMonths db).contains r.month)) := by
  constructor
  · intro m hm
    simp only [generateAllSnapshots]
    have hne : ¬ (getAllMonths db).isEmpty = true := by
      intro h
      rw [List.isEmpty_iff] at h
      rw [h] at hm
      simp at hm
    rw [if_neg hne]
    exact fold_monthly_presence_of_mem now (getAllMonths db) m hm db
  · simp only [generateAllSnapshots]
    split
    · rfl
    · apply fold_monthly_filter_out
      intro m hm r hr
      have hc : (getAllMonths db).contains r.month = true :=
        List.elem_eq_true_of_mem (hr ▸ hm)
      rw [hc]
      rfl

/-- C4 counterexample: in a state holding a stale `MonthlySnapshot` row for
2023-12 while the only balance is dated in 2024-01, full regeneration leaves
rows for both months, although the balance data contains only 2024-01 — the
set of snapshot months is strictly larger than the set of balance months. -/
theorem stale_snapshot_month_survives_cex :
    snapshotMonths (generateAllSnapshots staleMonthDb "t") = ["2023-12", "2024-01"] ∧
      getAllMonths staleMonthDb = ["2024-01"] ∧
      ("2023-12" : String) ≠ "2024-01" := by
  refine ⟨?_, by decide, by decide⟩
  simp +decide [snapshotMonths, generateAllSnapshots, writeSnapshotForMonth, monthlyPut,
    getAllMonths, sortStrings, insertSorted, addUnique, monthOf, jsTake, staleMonthDb,
    calculateSnapshotForMonth, calcStep, balancesLast, categoryTotalsUpdate]

/-! ## C6 -/

theorem monthlyPut_put_fields (tbl : List DbMonthlySnapshot) (r1 r2 : DbMonthlySnapshot)
    (hf : monthlyFields r2 = monthlyFields r1) :
    (monthlyPut (monthlyPut tbl r1) r2).map monthlyFields =
      (monthlyPut tbl r1).map monthlyFields := by
  have hm : r2.month = r1.month := congrArg Prod.fst hf
  obtain ⟨x, hx, hxm⟩ := monthlyPut_presence tbl r1
  have hany : ((monthlyPut tbl r1).any fun r => r.month = r2.month) = true :=
    List.any_eq_true.mpr ⟨x, hx, by simp [hxm, hm]⟩
  conv =>
    lhs
    rw [monthlyPut]
  rw [if_pos hany, List.map_map]
  apply List.map_congr_left
  intro x' hx'
  by_cases h : x'.month = r2.month
  · have hx1 : x' = r1 := monthlyPut_month_unique tbl r1 x' hx' (h.trans hm)
    simp only [Function.comp_apply, if_pos h]
    rw [hf, hx1]
  · simp only [Function.comp_apply, if_neg h]

theorem insertRows_filter_ne (month : String) (l : List CategoryTotal) :
    ∀ (acc : List DbCategorySnapshot) (n : Nat),
      ((l.foldl
          (fun (st : List DbCategorySnapshot × Nat) e =>
            (st.1 ++ [⟨st.2, month, e.categoryId, e.type, e.total⟩], st.2 + 1))
          (acc, n)).1).filter (fun r => r.month ≠ month) =
        acc.filter fun r => r.month ≠ month := by
  induction l with
  | nil => intro acc n; rfl
  | cons e t ih =>
    intro acc n
    simp only [List.foldl_cons]
    rw [ih, List.filter_append]
    simp

theorem kept_filter_ne_self (rows : List DbCategorySnapshot) (month : String) :
    (rows.filter fun r => r.month ≠ month).filter (fun r => r.month ≠ month) =
      rows.filter fun r => r.month ≠ month := by
  rw [List.filter_eq_self]
  intro a ha
  exact (List.mem_filter.mp ha).2

theorem writeSnapshotForMonth_categorySnapshots (db : DB) (month now : String) :
    (writeSnapshotForMonth db month now).categorySnapshots =
      (db.categorySnapshots.filter fun r => r.month ≠ month) ++
        ((calculateSnapshotForMonth db month).categoryTotals.foldl
          (fun (st : List DbCategorySnapshot × Nat) e =>
            (st.1 ++ [⟨st.2, month, e.categoryId, e.type, e.total⟩], st.2 + 1))
          ([], db.nextCategorySnapshotId)).1 := rfl

theorem writeSnapshotForMonth_monthlySnapshots (db : DB) (month now : String) :
    (writeSnapshotForMonth db month now).monthlySnapshots =
      monthlyPut db.monthlySnapshots
        ⟨month, (calculateSnapshotForMonth db month).assetsTotal,
          (calculateSnapshotForMonth db month).liabilitiesTotal,
          (calculateSnapshotForMonth db month).netWorth, now⟩ := rfl

theorem write_write_categoryFields (db : DB) (month now1 now2 : String) :
    ((writeSnapshotForMonth (writeSnapshotForMonth db month now1) month now2).categorySnapshots).map
        categoryFields =
      ((writeSnapshotForMonth db month now1).categorySnapshots).map categoryFields := by
  have hcongr : calculateSnapshotForMonth (writeSnapshotForMonth db month now1) month =
      calculateSnapshotForMonth db month :=
    calculateSnapshotForMonth_congr _ db month (writeSnapshotForMonth_accounts db month now1)
      (writeSnapshotForMonth_balances db month now1)
  rw [writeSnapshotForMonth_categorySnapshots (writeSnapshotForMonth db month now1) month now2,
    hcongr, writeSnapshotForMonth_categorySnapshots db month now1]
  have hkept : ((writeSnapshotForMonth db month now1).categorySnapshots).filter
      (fun r => r.month ≠ month) = db.categorySnapshots.filter fun r => r.month ≠ month := by
    rw [writeSnapshotForMonth_categorySnapshots db month now1, List.filter_append,
      kept_filter_ne_self, insertRows_filter_ne]
    simp
  rw [writeSnapshotForMonth_categorySnapshots db month now1] at hkept
  rw [hkept, List.map_append, List.map_append]
  congr 1
  rw [insertRows_fields, insertRows_fields]

theorem write_write_monthlyFields (db : DB) (month now1 now2 : String) :
    ((writeSnapshotForMonth (writeSnapshotForMonth db month now1) month now2).monthlySnapshots).map
        monthlyFields =
      ((writeSnapshotForMonth db month now1).monthlySnapshots).map monthlyFields := by
  have hcongr : calculateSnapshotForMonth (writeSnapshotForMonth db month now1) month =
      calculateSnapshotForMonth db month :=
    calculateSnapshotForMonth_congr _ db month (writeSnapshotForMonth_accounts db month now1)
      (writeSnapshotForMonth_balances db month now1)
  rw [writeSnapshotForMonth_monthlySnapshots (writeSnapshotForMonth db month now1) month now2,
    hcongr, writeSnapshotForMonth_monthlySnapshots db month now1]
  exact monthlyPut_put_fields db.monthlySnapshots _ _ rfl

/-- C6 (amended): regenerating a month's snapshots twice with no intervening
data change reproduces the `MonthlySnapshot` row and the `CategorySnapshot`
rows field for field — ignoring the generation timestamp (`createdAt`) of the
monthly row *and* the auto-increment surrogate id of the category rows, which
the second run necessarily renumbers because delete-then-insert draws fresh
keys from a generator that IndexedDB never rewinds.  The claim's "ignoring
only createdAt" is refuted by the id drift shown in the counterexample. -/
theorem regeneration_idempotent_modulo_surrogates (db : DB) (month now1 now2 : String) :
    ((regenerateSnapshotForMonth (regenerateSnapshotForMonth db month now1) month
          now2).monthlySnapshots).map monthlyFields =
        ((regenerateSnapshotForMonth db month now1).monthlySnapshots).map monthlyFields ∧
      ((regenerateSnapshotForMonth (regenerateSnapshotForMonth db month now1) month
          now2).categorySnapshots).map categoryFields =
        ((regenerateSnapshotForMonth db month now1).categorySnapshots).map categoryFields ∧
      (regenerateSnapshotForMonth (regenerateSnapshotForMonth db month now1) month
          now2).accounts =
        (regenerateSnapshotForMonth db month now1).accounts ∧
      (regenerateSnapshotForMonth (regenerateSnapshotForMonth db month now1) month
          now2).balances =
        (regenerateSnapshotForMonth db month now1).balances :=
  ⟨write_write_monthlyFields db month now1 now2,
    write_write_categoryFields db month now1 now2,
    writeSnapshotForMonth_accounts _ month now2,
    writeSnapshotForMonth_balances _ month now2⟩

/-- C6 counterexample: regenerating January 2024 twice in the overpaid state
rewrites the month's single `CategorySnapshot` row with a fresh auto-increment
id (2 instead of 1), so the stored rows after the second run are not identical
to those after the first even with `createdAt` disregarded (a
`CategorySnapshot` row has no `createdAt` field at all). -/
theorem regeneration_changes_surrogate_ids_cex :
    ((regenerateSnapshotForMonth overpaidDb "2024-01" "t").categorySnapshots.map (·.id) = [1]) ∧
      ((regenerateSnapshotForMonth (regenerateSnapshotForMonth overpaidDb "2024-01" "t")
          "2024-01" "t").categorySnapshots.map (·.id) = [2]) ∧
      (regenerateSnapshotForMonth (regenerateSnapshotForMonth overpaidDb "2024-01" "t")
          "2024-01" "t").categorySnapshots ≠
        (regenerateSnapshotForMonth overpaidDb "2024-01" "t").categorySnapshots := by
  refine ⟨?_, ?_, ?_⟩
  · simp +decide [regenerateSnapshotForMonth, writeSnapshotForMonth, monthlyPut, overpaidDb,
      calculateSnapshotForMonth, calcStep, balancesLast, categoryTotalsUpdate]
  · simp +decide [regenerateSnapshotForMonth, writeSnapshotForMonth, monthlyPut, overpaidDb,
      calculateSnapshotForMonth, calcStep, balancesLast, categoryTotalsUpdate]
  · intro heq
    have h1 : ((regenerateSnapshotForMonth overpaidDb "2024-01" "t").categorySnapshots.map
        (·.id) = [1]) := by
      simp +decide [regenerateSnapshotForMonth, writeSnapshotForMonth, monthlyPut, overpaidDb,
        calculateSnapshotForMonth, calcStep, balancesLast, categoryTotalsUpdate]
    have h2 : ((regenerateSnapshotForMonth (regenerateSnapshotForMonth overpaidDb "2024-01" "t")
        "2024-01" "t").categorySnapshots.map (·.id) = [2]) := by
      simp +decide [regenerateSnapshotForMonth, writeSnapshotForMonth, monthlyPut, overpaidDb,
        calculateSnapshotForMonth, calcStep, balancesLast, categoryTotalsUpdate]
    rw [heq, h1] at h2
    exact absurd h2 (by decide)

/-! ## Lemmas about the calculator's category keys -/

theorem categoryTotalsUpdate_keys (m : List CategoryTotal) (k : Nat) (ty : AccountType) (v : ℚ) :
    (categoryTotalsUpdate m k ty v).map (·.categoryId) =
      if (m.any fun e => e.categoryId = k) then m.map (·.categoryId)
      else m.map (·.categoryId) ++ [k] := by
  unfold categoryTotalsUpdate
  split
  · rw [List.map_map]
    apply List.map_congr_left
    intro e _
    by_cases he : e.categoryId = k <;> simp [he]
  · simp

theorem categoryTotalsUpdate_keys_nodup (m : List CategoryTotal) (k : Nat) (ty : AccountType)
    (v : ℚ) (h : (m.map (·.categoryId)).Nodup) :
    ((categoryTotalsUpdate m k ty v).map (·.categoryId)).Nodup := by
  rw [categoryTotalsUpdate_keys]
  split
  · exact h
  · next hany =>
    rw [List.nodup_append]
    refine ⟨h, List.nodup_singleton k, ?_⟩
    intro x hx hk
    rw [List.mem_singleton.mp hk] at hx
    obtain ⟨e, he, hek⟩ := List.mem_map.mp hx
    exact hany (List.any_eq_true.mpr ⟨e, he, by simpa using hek⟩)

theorem categoryTotalsUpdate_keys_mem (m : List CategoryTotal) (k : Nat) (ty : AccountType)
    (v : ℚ) (cid : Nat) :
    cid ∈ (categoryTotalsUpdate m k ty v).map (·.categoryId) ↔
      cid ∈ m.map (·.categoryId) ∨ cid = k := by
  rw [categoryTotalsUpdate_keys]
  split
  · next h =>
    constructor
    · exact Or.inl
    · rintro (hx | rfl)
      · exact hx
      · obtain ⟨e, he, hek⟩ := List.any_eq_true.mp h
        exact List.mem_map.mpr ⟨e, he, by simpa using hek⟩
  · simp

theorem calcStep_categoryTotals (db : DB) (month : String) (acc : ℚ × ℚ × List CategoryTotal)
    (a : DbAccount) :
    (a.id = 0 ∨ balancesLast db.balances a.id (fun b => jsLe b.date (getMonthEndDate month)) = none) ∧
        (calcStep db.balances (getMonthEndDate month) acc a).2.2 = acc.2.2 ∨
      ∃ b, a.id ≠ 0 ∧
        balancesLast db.balances a.id (fun b => jsLe b.date (getMonthEndDate month)) = some b ∧
        (calcStep db.balances (getMonthEndDate month) acc a).2.2 =
          categoryTotalsUpdate acc.2.2 a.categoryId a.type b.value := by
  obtain ⟨a0, l0, m0⟩ := acc
  unfold calcStep
  by_cases h0 : a.id = 0
  · exact Or.inl ⟨Or.inl h0, by simp [h0]⟩
  · cases hb : balancesLast db.balances a.id fun b => jsLe b.date (getMonthEndDate month) with
    | none => exact Or.inl ⟨Or.inr rfl, by simp [h0]⟩
    | some b => exact Or.inr ⟨b, h0, rfl, by simp [h0]⟩

theorem calc_fold_keys_nodup (db : DB) (month : String) (l : List DbAccount) :
    ∀ acc : ℚ × ℚ × List CategoryTotal, ((acc.2.2).map (·.categoryId)).Nodup →
      (((l.foldl (calcStep db.balances (getMonthEndDate month)) acc).2.2).map
        (·.categoryId)).Nodup := by
  induction l with
  | nil => intro acc h; exact h
  | cons a t ih =>
    intro acc h
    simp only [List.foldl_cons]
    apply ih
    rcases calcStep_categoryTotals db month acc a with ⟨-, heq⟩ | ⟨b, -, -, heq⟩
    · rw [heq]; exact h
    · rw [heq]; exact categoryTotalsUpdate_keys_nodup _ _ _ _ h

theorem calc_fold_keys_mem (db : DB) (month : String) (l : List DbAccount) :
    ∀ (acc : ℚ × ℚ × List CategoryTotal) (cid : Nat),
      cid ∈ ((l.foldl (calcStep db.balances (getMonthEndDate month)) acc).2.2).map
          (·.categoryId) ↔
        cid ∈ (acc.2.2).map (·.categoryId) ∨
          ∃ a ∈ l, a.id ≠ 0 ∧ a.categoryId = cid ∧ contributingValue db month a ≠ none := by
  induction l with
  | nil => intro acc cid; simp
  | cons a t ih =>
    intro acc cid
    simp only [List.foldl_cons]
    rw [ih]
    rcases calcStep_categoryTotals db month acc a with ⟨hskip, heq⟩ | ⟨b, h0, hb, heq⟩
    · rw [heq]
      have hnone : contributingValue db month a = none := by
        unfold contributingValue
        rcases hskip with h | h
        · rw [if_pos h]
        · by_cases h0 : a.id = 0
          · rw [if_pos h0]
          · rw [if_neg h0, h]; rfl
      constructor
      · rintro (hx | ⟨a', ha', ha0, hcid, hcv⟩)
        · exact Or.inl hx
        · exact Or.inr ⟨a', List.mem_cons_of_mem a ha', ha0, hcid, hcv⟩
      · rintro (hx | ⟨a', ha', ha0, hcid, hcv⟩)
        · exact Or.inl hx
        · rcases List.mem_cons.mp ha' with rfl | ha''
          · exact absurd hnone hcv
          · exact Or.inr ⟨a', ha'', ha0, hcid, hcv⟩
    · rw [heq]
      have hsome : contributingValue db month a ≠ none := by
        unfold contributingValue
        rw [if_neg h0, hb]
        simp
      rw [categoryTotalsUpdate_keys_mem]
      constructor
      · rintro ((hx | rfl) | ⟨a', ha', ha0, hcid, hcv⟩)
        · exact Or.inl hx
        · exact Or.inr ⟨a, List.mem_cons_self a t, h0, rfl, hsome⟩
        · exact Or.inr ⟨a', List.mem_cons_of_mem a ha', ha0, hcid, hcv⟩
      · rintro (hx | ⟨a', ha', ha0, hcid, hcv⟩)
        · exact Or.inl (Or.inl hx)
        · rcases List.mem_cons.mp ha' with rfl | ha''
          · exact Or.inl (Or.inr hcid.symm)
          · exact Or.inr ⟨a', ha'', ha0, hcid, hcv⟩

/-! ## C5 -/

/-- C5: for every month processed by a regeneration — single-month or full —
the stored `CategorySnapshot` rows of that month afterwards are exactly one
row per entry of the calculator's `categoryTotals` map (pre-existing rows of
the month having all been deleted first): the rows project, in order, onto
the map's entries, the map's keys are pairwise distinct, and a key appears in
the map exactly when some account with an id and that category has a balance
at or before the month's end. -/
theorem category_snapshot_rows_exact (db : DB) (month now : String) :
    ((categoryRowsOf (regenerateSnapshotForMonth db month now) month).map categoryFields =
        (calculateSnapshotForMonth db month).categoryTotals.map
          fun e => (month, e.categoryId, e.type, e.total)) ∧
      (((calculateSnapshotForMonth db month).categoryTotals.map (·.categoryId)).Nodup) ∧
      (∀ cid, (cid ∈ (calculateSnapshotForMonth db month).categoryTotals.map (·.categoryId)) ↔
        ∃ a ∈ db.accounts, a.id ≠ 0 ∧ a.categoryId = cid ∧
          contributingValue db month a ≠ none) ∧
      (∀ m ∈ getAllMonths db,
        (categoryRowsOf (generateAllSnapshots db now) m).map categoryFields =
          (calculateSnapshotForMonth db m).categoryTotals.map
            fun e => (m, e.categoryId, e.type, e.total)) := by
  refine ⟨categoryRowsOf_write_self db month now, ?_, ?_, ?_⟩
  · unfold calculateSnapshotForMonth
    simp only
    exact calc_fold_keys_nodup db month db.accounts (0, 0, []) (by simp)
  · intro cid
    unfold calculateSnapshotForMonth
    simp only
    rw [calc_fold_keys_mem]
    simp
  · intro m hm
    simp only [generateAllSnapshots]
    have hne : ¬ (getAllMonths db).isEmpty = true := by
      intro h
      rw [List.isEmpty_iff] at h
      rw [h] at hm
      simp at hm
    rw [if_neg hne]
    exact fold_categoryRows_processed db now (getAllMonths db) (getAllMonths_nodup db) db rfl
      rfl m hm

/-! ## Lemmas about the forward index scan and the balance upsert -/

theorem minFold_go (l : List DbBalance) :
    ∀ a : DbBalance, ∃ r,
      List.foldl
          (fun best b =>
            match best with
            | none => some b
            | some a => if b.id < a.id then some b else some a)
          (some a) l = some r ∧ (r = a ∨ r ∈ l) := by
  induction l with
  | nil => intro a; exact ⟨a, rfl, Or.inl rfl⟩
  | cons b t ih =>
    intro a
    by_cases h : b.id < a.id
    · obtain ⟨r, hr, hmem⟩ := ih b
      refine ⟨r, by simpa [h] using hr, ?_⟩
      rcases hmem with h' | h'
      · exact Or.inr (by simp [h'])
      · exact Or.inr (List.mem_cons_of_mem _ h')
    · obtain ⟨r, hr, hmem⟩ := ih a
      refine ⟨r, by simpa [h] using hr, ?_⟩
      rcases hmem with h' | h'
      · exact Or.inl h'
      · exact Or.inr (List.mem_cons_of_mem _ h')

theorem minFold_none_iff (l : List DbBalance) :
    List.foldl
        (fun best b =>
          match best with
          | none => some b
          | some a => if b.id < a.id then some b else some a)
        none l = none ↔ l = [] := by
  cases l with
  | nil => simp
  | cons b t =>
    simp only [List.foldl_cons]
    obtain ⟨r, hr, -⟩ := minFold_go t b
    simp [hr]

theorem balancesFirst_spec (bs : List DbBalance) (aid : Nat) (p : DbBalance → Bool) :
    (∀ e, balancesFirst bs aid p = some e →
        e ∈ bs ∧ e.accountId = aid ∧ p e = true) ∧
      (balancesFirst bs aid p = none → ∀ b ∈ bs, b.accountId = aid → p b = false) := by
  constructor
  · intro e he
    unfold balancesFirst at he
    have hmem : e ∈ bs.filter fun x => x.accountId = aid && p x := by
      cases hl : bs.filter fun x => x.accountId = aid && p x with
      | nil => rw [hl] at he; simp at he
      | cons c t =>
        rw [hl] at he
        simp only [List.foldl_cons] at he
        obtain ⟨r, hr, hmemr⟩ := minFold_go t c
        rw [hr] at he
        obtain rfl := Option.some_injective _ he
        rcases hmemr with rfl | h'
        · simp
        · exact List.mem_cons_of_mem _ h'
    have hprop := List.mem_filter.mp hmem
    have hacc : e.accountId = aid ∧ p e = true := by
      have := hprop.2
      simpa [Bool.and_eq_true, decide_eq_true_eq] using this
    exact ⟨hprop.1, hacc.1, hacc.2⟩
  · intro hnone b hb haid
    unfold balancesFirst at hnone
    by_contra hp
    have hp' : p b = true := by
      cases h : p b with
      | true => rfl
      | false => exact absurd h hp
    have hmem : b ∈ bs.filter fun x => x.accountId = aid && p x :=
      List.mem_filter.mpr ⟨hb, by simp [haid, hp']⟩
    rw [minFold_none_iff] at hnone
    rw [hnone] at hmem
    simp at hmem

theorem updateBalance_balances_update (db : DB) (a : Nat) (v : ℚ) (d now : String)
    (e : DbBalance) (he : balancesFirst db.balances a (fun b => b.date = d) = some e) :
    (updateBalance db a v d now).balances =
      db.balances.map fun b => if b.id = e.id then { b with value := v } else b := by
  unfold updateBalance
  rw [he, generateAllSnapshots_balances]

theorem updateBalance_balances_add (db : DB) (a : Nat) (v : ℚ) (d now : String)
    (he : balancesFirst db.balances a (fun b => b.date = d) = none) :
    (updateBalance db a v d now).balances = db.balances ++ [⟨db.nextBalanceId, a, d, v⟩] := by
  unfold updateBalance
  rw [he, generateAllSnapshots_balances]

theorem updateBalance_nextBalanceId_update (db : DB) (a : Nat) (v : ℚ) (d now : String)
    (e : DbBalance) (he : balancesFirst db.balances a (fun b => b.date = d) = some e) :
    (updateBalance db a v d now).nextBalanceId = db.nextBalanceId := by
  unfold updateBalance
  rw [he, generateAllSnapshots_nextBalanceId]

theorem updateBalance_nextBalanceId_add (db : DB) (a : Nat) (v : ℚ) (d now : String)
    (he : balancesFirst db.balances a (fun b => b.date = d) = none) :
    (updateBalance db a v d now).nextBalanceId = db.nextBalanceId + 1 := by
  unfold updateBalance
  rw [he, generateAllSnapshots_nextBalanceId]

theorem filter_key_unique (l : List DbBalance) (a : Nat) (d : String)
    (hpw : l.Pairwise fun b1 b2 => ¬(b1.accountId = b2.accountId ∧ b1.date = b2.date))
    (e : DbBalance) (he : e ∈ l) (hea : e.accountId = a) (hed : e.date = d) :
    l.filter (fun b => b.accountId = a && b.date = d) = [e] := by
  induction l with
  | nil => simp at he
  | cons h t ih =>
    rw [List.pairwise_cons] at hpw
    rcases List.mem_cons.mp he with rfl | het
    · rw [List.filter_cons, if_pos (by simp [hea, hed])]
      have hnil : t.filter (fun b => b.accountId = a && b.date = d) = [] := by
        rw [List.filter_eq_nil_iff]
        intro x hx hmatch
        simp only [Bool.and_eq_true, decide_eq_true_eq] at hmatch
        exact hpw.1 x hx ⟨hea.trans hmatch.1.symm, hed.trans hmatch.2.symm⟩
      rw [hnil]
    · have hno : ¬ ((h.accountId = a && h.date = d) = true) := by
        intro hmatch
        simp only [Bool.and_eq_true, decide_eq_true_eq] at hmatch
        exact hpw.1 e het ⟨hmatch.1.trans hea.symm, hmatch.2.trans hed.symm⟩
      rw [List.filter_cons, if_neg hno]
      exact ih hpw.2 het

theorem filter_key_map_update (l : List DbBalance) (a : Nat) (d : String)
    (f : DbBalance → DbBalance) (hf : ∀ b, (f b).accountId = b.accountId ∧ (f b).date = b.date) :
    (l.map f).filter (fun b => b.accountId = a && b.date = d) =
      (l.filter fun b => b.accountId = a && b.date = d).map f := by
  induction l with
  | nil => rfl
  | cons h t ih =>
    simp only [List.map_cons, List.filter_cons]
    have hcond : ((f h).accountId = a && (f h).date = d) = (h.accountId = a && h.date = d) := by
      rw [(hf h).1, (hf h).2]
    rw [hcond]
    by_cases hc : (h.accountId = a && h.date = d) = true
    · rw [if_pos hc, if_pos hc, List.map_cons, ih]
    · rw [if_neg hc, if_neg hc, ih]

theorem updateBalance_wf (db : DB) (a : Nat) (v : ℚ) (d now : String) (hwf : balancesWf db) :
    balancesWf (updateBalance db a v d now) := by
  obtain ⟨hnd, hpw, hlt⟩ := hwf
  cases hfind : balancesFirst db.balances a (fun b => b.date = d) with
  | some e =>
    refine ⟨?_, ?_, ?_⟩
    · rw [updateBalance_balances_update db a v d now e hfind, List.map_map]
      have : ((fun (x : DbBalance) => x.id) ∘ fun b =>
          if b.id = e.id then { b with value := v } else b) = fun (x : DbBalance) => x.id := by
        funext b
        by_cases h : b.id = e.id <;> simp [h]
      rw [this]
      exact hnd
    · rw [updateBalance_balances_update db a v d now e hfind]
      apply List.Pairwise.map _ _ hpw
      intro b1 b2 h12
      by_cases h1 : b1.id = e.id <;> by_cases h2 : b2.id = e.id <;> simpa [h1, h2] using h12
    · intro b hb
      rw [updateBalance_nextBalanceId_update db a v d now e hfind]
      rw [updateBalance_balances_update db a v d now e hfind] at hb
      obtain ⟨x, hx, rfl⟩ := List.mem_map.mp hb
      by_cases h : x.id = e.id <;> simpa [h] using hlt x hx
  | none =>
    have hnomatch := (balancesFirst_spec db.balances a fun b => b.date = d).2 hfind
    refine ⟨?_, ?_, ?_⟩
    · rw [updateBalance_balances_add db a v d now hfind, List.map_append, List.nodup_append]
      refine ⟨hnd, by simp, ?_⟩
      intro x hx hxe
      simp only [List.map_cons, List.map_nil, List.mem_singleton] at hxe
      obtain ⟨b, hb, rfl⟩ := List.mem_map.mp hx
      exact absurd (hxe ▸ hlt b hb) (lt_irrefl _)
    · rw [updateBalance_balances_add db a v d now hfind, List.pairwise_append]
      refine ⟨hpw, by simp, ?_⟩
      intro x hx y hy
      rw [List.mem_singleton.mp hy]
      intro ⟨hxa, hxd⟩
      have := hnomatch x hx (by simpa using hxa)
      simp only [decide_eq_false_iff_not] at this
      exact this (by simpa using hxd)
    · intro b hb
      rw [updateBalance_nextBalanceId_add db a v d now hfind]
      rw [updateBalance_balances_add db a v d now hfind] at hb
      rcases List.mem_append.mp hb with h | h
      · exact lt_trans (hlt b h) (Nat.lt_succ_self _)
      · rw [List.mem_singleton.mp h]
        exact Nat.lt_succ_self _

theorem updateBalance_key_values (db : DB) (a : Nat) (v : ℚ) (d now : String)
    (hwf : balancesWf db) :
    (balancesForKey (updateBalance db a v d now) a d).map (·.value) = [v] := by
  obtain ⟨hnd, hpw, hlt⟩ := hwf
  cases hfind : balancesFirst db.balances a (fun b => b.date = d) with
  | some e =>
    obtain ⟨hmem, hacc, hp⟩ :=
      (balancesFirst_spec db.balances a fun b => b.date = d).1 e hfind
    have hdate : e.date = d := by simpa using hp
    unfold balancesForKey
    rw [updateBalance_balances_update db a v d now e hfind,
      filter_key_map_update db.balances a d _
        (fun b => by by_cases h : b.id = e.id <;> simp [h]),
      filter_key_unique db.balances a d hpw e hmem hacc hdate]
    simp
  | none =>
    have hnomatch := (balancesFirst_spec db.balances a fun b => b.date = d).2 hfind
    unfold balancesForKey
    rw [updateBalance_balances_add db a v d now hfind, List.filter_append]
    have hnil : db.balances.filter (fun b => b.accountId = a && b.date = d) = [] := by
      rw [List.filter_eq_nil_iff]
      intro x hx hmatch
      simp only [Bool.and_eq_true, decide_eq_true_eq] at hmatch
      have := hnomatch x hx hmatch.1
      simp only [decide_eq_false_iff_not] at this
      exact this hmatch.2
    rw [hnil]
    simp

/-! ## C7 -/

/-- C7: balance recording upserts by the natural key `(accountId, date)`: on
a well-formed table, calling `updateBalance` twice with the same account and
date and two values leaves exactly one balance row for that key, holding the
second value; and every single `updateBalance` call preserves the
at-most-one-row-per-`(accountId, date)` invariant (together with the table's
primary-key well-formedness). -/
theorem updateBalance_upsert_by_natural_key (db : DB) (accountId : Nat) (date : String)
    (v1 v2 : ℚ) (now1 now2 : String) (hwf : balancesWf db) :
    (balancesForKey
        (updateBalance (updateBalance db accountId v1 date now1) accountId v2 date now2)
        accountId date).map (·.value) = [v2] ∧
      ∀ (a : Nat) (v : ℚ) (d n : String), balancesWf (updateBalance db a v d n) :=
  ⟨updateBalance_key_values (updateBalance db accountId v1 date now1) accountId v2 date now2
      (updateBalance_wf db accountId v1 date now1 hwf),
    fun a v d n => updateBalance_wf db a v d n hwf⟩

/-- C7 witness: the upsert theorem applied to the concrete overpaid-liability
state, recording 5 and then 7 for account 1 on 2024-02-01. -/
theorem updateBalance_upsert_witness :
    balancesWf overpaidDb ∧
      (balancesForKey
          (updateBalance (updateBalance overpaidDb 1 5 "2024-02-01" "t1") 1 7 "2024-02-01" "t2")
          1 "2024-02-01").map (·.value) = [7] :=
  ⟨by decide,
    (updateBalance_upsert_by_natural_key overpaidDb 1 "2024-02-01" 5 7 "t1" "t2" (by decide)).1⟩

/-! ## Lemmas about the category-kind cascade -/

theorem catMinFold_go (l : List DbCategory) :
    ∀ a : DbCategory, ∃ r,
      List.foldl
          (fun best c =>
            match best with
            | none => some c
            | some a => if c.id < a.id then some c else some a)
          (some a) l = some r ∧ (r = a ∨ r ∈ l) := by
  induction l with
  | nil => intro a; exact ⟨a, rfl, Or.inl rfl⟩
  | cons c t ih =>
    intro a
    by_cases h : c.id < a.id
    · obtain ⟨r, hr, hmem⟩ := ih c
      refine ⟨r, by simpa [h] using hr, ?_⟩
      rcases hmem with h' | h'
      · exact Or.inr (by simp [h'])
      · exact Or.inr (List.mem_cons_of_mem _ h')
    · obtain ⟨r, hr, hmem⟩ := ih a
      refine ⟨r, by simpa [h] using hr, ?_⟩
      rcases hmem with h' | h'
      · exact Or.inl h'
      · exact Or.inr (List.mem_cons_of_mem _ h')

theorem categoriesFirstByName_spec (cs : List DbCategory) (n : String) :
    ∀ c, categoriesFirstByName cs n = some c → c ∈ cs ∧ c.name = n := by
  intro c hc
  unfold categoriesFirstByName at hc
  have hmem : c ∈ cs.filter fun x => x.name = n := by
    cases hl : cs.filter fun x => x.name = n with
    | nil => rw [hl] at hc; simp at hc
    | cons h t =>
      rw [hl] at hc
      simp only [List.foldl_cons] at hc
      obtain ⟨r, hr, hmemr⟩ := catMinFold_go t h
      rw [hr] at hc
      obtain rfl := Option.some_injective _ hc
      rcases hmemr with rfl | h'
      · simp
      · exact List.mem_cons_of_mem _ h'
  have hprop := List.mem_filter.mp hmem
  exact ⟨hprop.1, by simpa using hprop.2⟩

theorem foldApply_eq_map (ty : AccountType) (l : List DbAccount) :
    ∀ rows : List DbAccount,
      l.foldl (fun rs a => rs.map fun r => if r.id = a.id then { r with type := ty } else r)
          rows =
        rows.map fun r =>
          if l.any (fun a => a.id = r.id) then { r with type := ty } else r := by
  induction l with
  | nil =>
    intro rows
    simp
  | cons a t ih =>
    intro rows
    simp only [List.foldl_cons]
    rw [ih, List.map_map]
    apply List.map_congr_left
    intro r _
    simp only [Function.comp_apply, List.any_cons]
    have hid : ((if r.id = a.id then { r with type := ty } else r) : DbAccount).id = r.id := by
      by_cases h : r.id = a.id <;> simp [h]
    rw [hid]
    by_cases h : r.id = a.id
    · rw [if_pos h]
      by_cases ht : (t.any fun x => x.id = r.id) = true
      · rw [if_pos ht, if_pos (by simp [h.symm])]
      · rw [if_neg ht, if_pos (by simp [h.symm])]
    · have hne : ¬ (a.id = r.id) := fun hh => h hh.symm
      rw [if_neg h]
      by_cases ht : (t.any fun x => x.id = r.id) = true
      · rw [if_pos ht, if_pos (by simp [ht])]
      · rw [if_neg ht, if_neg (by simp [hne, ht])]

theorem updateCategoryApply_accounts (db : DB) (id : Nat) (name : String) (ty : AccountType)
    (now : String) (hnd : (db.accounts.map (·.id)).Nodup) :
    (updateCategoryApply db id name ty now).accounts =
      db.accounts.map fun r => if r.categoryId = id then { r with type := ty } else r := by
  unfold updateCategoryApply
  rw [generateAllSnapshots_accounts]
  show (db.accounts.filter fun a => a.categoryId = id).foldl
      (fun rows a => rows.map fun r => if r.id = a.id then { r with type := ty } else r)
      db.accounts = _
  rw [foldApply_eq_map]
  apply List.map_congr_left
  intro r hr
  by_cases h : r.categoryId = id
  · have hany : ((db.accounts.filter fun a => a.categoryId = id).any
        fun a => a.id = r.id) = true :=
      List.any_eq_true.mpr ⟨r, List.mem_filter.mpr ⟨hr, by simp [h]⟩, by simp⟩
    rw [hany, if_pos rfl, if_pos (by simp [h])]
  · have hany : ¬ (((db.accounts.filter fun a => a.categoryId = id).any
        fun a => a.id = r.id) = true) := by
      intro hany
      obtain ⟨x, hx, hxid⟩ := List.any_eq_true.mp hany
      obtain ⟨hxmem, hxcat⟩ := List.mem_filter.mp hx
      have hxr : x = r := List.inj_on_of_nodup_map hnd hxmem hr (by simpa using hxid)
      rw [hxr] at hxcat
      exact h (by simpa using hxcat)
    simp only [Bool.not_eq_true] at hany
    rw [hany]
    simp only [Bool.false_eq_true, if_false]
    rw [if_neg h]

theorem updateCategoryApply_categories (db : DB) (id : Nat) (name : String) (ty : AccountType)
    (now : String) :
    (updateCategoryApply db id name ty now).categories =
      db.categories.map fun c => if c.id = id then { c with name := name, type := ty } else c := by
  unfold updateCategoryApply
  rw [generateAllSnapshots_categories]

/-! ## C8 -/

/-- C8: the account-kind/category-kind invariant — every account's `type`
equals the `type` of the category row it references — is maintained by every
mutation: on a well-formed state satisfying it, a successful `addAccount`,
`updateAccount`, or `updateCategory` yields a state satisfying it again, and
`updateCategory` in particular rewrites the `type` of every account
referencing the edited category to the new kind. -/
theorem kind_invariant_maintained (db : DB) (hnd : (db.accounts.map (·.id)).Nodup)
    (hinv : kindInv db) :
    (∀ data now db' nid, addAccount db data now = .ok (db', nid) → kindInv db') ∧
      (∀ accountId data now db', updateAccount db accountId data now = .ok db' → kindInv db') ∧
      (∀ id name ty now db', updateCategory db id name ty now = .ok db' →
        kindInv db' ∧ ∀ a ∈ db'.accounts, a.categoryId = id → a.type = ty) := by
  refine ⟨?_, ?_, ?_⟩
  · intro data now db' nid h
    unfold addAccount at h
    cases hfind : categoriesFirstByName db.categories data.category with
    | none => simp only [hfind] at h; exact absurd h (by simp)
    | some c =>
      simp only [hfind] at h
      by_cases h0 : c.id = 0
      · rw [if_pos h0] at h; exact absurd h (by simp)
      · rw [if_neg h0] at h
        simp only [Except.ok.injEq, Prod.mk.injEq] at h
        obtain ⟨hdb, -⟩ := h
        obtain ⟨hcmem, -⟩ := categoriesFirstByName_spec db.categories data.category c hfind
        intro a ha
        rw [← hdb, generateAllSnapshots_accounts] at ha
        rw [← hdb, generateAllSnapshots_categories]
        simp only at ha
        rcases List.mem_append.mp ha with hold | hnew
        · exact hinv a hold
        · rw [List.mem_singleton.mp hnew]
          exact ⟨c, hcmem, rfl, rfl⟩
  · intro accountId data now db' h
    unfold updateAccount at h
    cases hfind : categoriesFirstByName db.categories data.category with
    | none => simp only [hfind] at h; exact absurd h (by simp)
    | some c =>
      simp only [hfind] at h
      by_cases h0 : c.id = 0
      · rw [if_pos h0] at h; exact absurd h (by simp)
      · rw [if_neg h0] at h
        simp only [Except.ok.injEq] at h
        obtain ⟨hcmem, -⟩ := categoriesFirstByName_spec db.categories data.category c hfind
        intro a ha
        rw [← h, generateAllSnapshots_accounts] at ha
        rw [← h, generateAllSnapshots_categories]
        simp only at ha
        obtain ⟨r, hr, hra⟩ := List.mem_map.mp ha
        by_cases hid : r.id = accountId
        · rw [if_pos hid] at hra
          rw [← hra]
          exact ⟨c, hcmem, rfl, rfl⟩
        · rw [if_neg hid] at hra
          rw [← hra]
          exact hinv r hr
  · intro id name ty now db' h
    have happly : db' = updateCategoryApply db id name ty now := by
      unfold updateCategory at h
      cases hfind : categoriesFirstByNameCI db.categories name with
      | none => simp only [hfind] at h; simpa using h.symm
      | some existing =>
        simp only [hfind] at h
        by_cases hne : existing.id ≠ id
        · rw [if_pos hne] at h; exact absurd h (by simp)
        · rw [if_neg hne] at h; simpa using h.symm
    subst happly
    constructor
    · intro a ha
      rw [updateCategoryApply_accounts db id name ty now hnd] at ha
      rw [updateCategoryApply_categories]
      obtain ⟨r, hr, hra⟩ := List.mem_map.mp ha
      obtain ⟨c, hcmem, hcid, hcty⟩ := hinv r hr
      by_cases hcat : r.categoryId = id
      · rw [if_pos hcat] at hra
        refine ⟨{ c with name := name, type := ty }, List.mem_map.mpr ⟨c, hcmem, ?_⟩, ?_, ?_⟩
        · rw [if_pos (by rw [hcid, hcat])]
        · rw [← hra]
          simpa using hcid
        · rw [← hra]
      · rw [if_neg hcat] at hra
        refine ⟨c, List.mem_map.mpr ⟨c, hcmem, ?_⟩, ?_, ?_⟩
        · rw [if_neg (by rw [hcid]; exact hcat)]
        · rw [← hra]; exact hcid
        · rw [← hra]; exact hcty
    · intro a ha hcat
      rw [updateCategoryApply_accounts db id name ty now hnd] at ha
      obtain ⟨r, hr, hra⟩ := List.mem_map.mp ha
      by_cases hrc : r.categoryId = id
      · rw [if_pos hrc] at hra
        rw [← hra]
      · rw [if_neg hrc] at hra
        rw [← hra] at hcat
        exact absurd hcat hrc

/-- C8 witness: the cascade theorem applied to the concrete two-category
state, re-typing category 2 ("Loan") to liability. -/
theorem kind_invariant_witness :
    (twoCategoryDb.accounts.map (·.id)).Nodup ∧ kindInv twoCategoryDb ∧
      kindInv (updateCategoryApply twoCategoryDb 2 "Loan" AccountType.liability "t") := by
  have happ : updateCategory twoCategoryDb 2 "Loan" AccountType.liability "t" =
      .ok (updateCategoryApply twoCategoryDb 2 "Loan" AccountType.liability "t") := by
    simp +decide [updateCategory, categoriesFirstByNameCI, eqIgnoreCase, lowerChar,
      twoCategoryDb]
  exact ⟨by decide, by decide,
    ((kind_invariant_maintained twoCategoryDb (by decide) (by decide)).2.2 2 "Loan"
      AccountType.liability "t" _ happ).1⟩

/-! ## Lemmas about the auditor's stored-totals map -/

theorem find_map_keep_keys (g : Nat × ℚ → Nat × ℚ) (hg : ∀ e, (g e).1 = e.1) (k : Nat)
    (m : List (Nat × ℚ)) :
    (m.map g).find? (fun e => e.1 = k) = (m.find? fun e => e.1 = k).map g := by
  induction m with
  | nil => rfl
  | cons e t ih =>
    simp only [List.map_cons, List.find?, hg e]
    by_cases hek : e.1 = k
    · simp [hek]
    · simp [hek, ih]

theorem storedStep_lookup_other (m : List (Nat × ℚ)) (r : DbCategorySnapshot) (k : Nat)
    (hk : r.categoryId ≠ k) :
    totalsLookup
        (if m.any fun e => e.1 = r.categoryId then
          m.map fun e => if e.1 = r.categoryId then (e.1, r.total) else e
        else m ++ [(r.categoryId, r.total)]) k =
      totalsLookup m k := by
  have hg : ∀ e : Nat × ℚ, ((if e.1 = r.categoryId then (e.1, r.total) else e) : Nat × ℚ).1 =
      e.1 := by
    intro e
    by_cases h : e.1 = r.categoryId <;> simp [h]
  unfold totalsLookup
  by_cases hany : (m.any fun e => e.1 = r.categoryId) = true
  · rw [if_pos hany, find_map_keep_keys _ hg k m]
    cases hf : m.find? fun e => decide (e.1 = k) with
    | none => simp [hf]
    | some e =>
      have hek : e.1 = k := by simpa using List.find?_some hf
      have hne : ¬ e.1 = r.categoryId := by
        rw [hek]
        exact fun hh => hk hh.symm
      simp [hf, hne]
  · rw [if_neg hany, List.find?_append]
    cases hf : m.find? fun e => decide (e.1 = k) with
    | some e => simp [hf]
    | none => simp [hf, List.find?, hk]

theorem storedStep_lookup_self (m : List (Nat × ℚ)) (r : DbCategorySnapshot) :
    totalsLookup
        (if m.any fun e => e.1 = r.categoryId then
          m.map fun e => if e.1 = r.categoryId then (e.1, r.total) else e
        else m ++ [(r.categoryId, r.total)]) r.categoryId =
      some r.total := by
  have hg : ∀ e : Nat × ℚ, ((if e.1 = r.categoryId then (e.1, r.total) else e) : Nat × ℚ).1 =
      e.1 := by
    intro e
    by_cases h : e.1 = r.categoryId <;> simp [h]
  unfold totalsLookup
  by_cases hany : (m.any fun e => e.1 = r.categoryId) = true
  · rw [if_pos hany, find_map_keep_keys _ hg _ m]
    cases hf : m.find? fun e => decide (e.1 = r.categoryId) with
    | none =>
      rw [List.find?_eq_none] at hf
      obtain ⟨x, hx, hxp⟩ := List.any_eq_true.mp hany
      exact absurd (by simpa using hxp) (by simpa using hf x hx)
    | some e =>
      have he : e.1 = r.categoryId := by simpa using List.find?_some hf
      simp [hf, he]
  · rw [if_neg hany, List.find?_append]
    have hnone : m.find? (fun e => decide (e.1 = r.categoryId)) = none := by
      rw [List.find?_eq_none]
      intro e he
      simp only [Bool.not_eq_true, List.any_eq_false, decide_eq_true_eq] at hany
      simpa using hany e he
    simp [hnone, List.find?]

theorem storedFold_lookup_other (rows : List DbCategorySnapshot) (k : Nat)
    (h : ∀ r ∈ rows, r.categoryId ≠ k) :
    ∀ m : List (Nat × ℚ),
      totalsLookup
          (rows.foldl
            (fun m r =>
              if m.any fun e => e.1 = r.categoryId then
                m.map fun e => if e.1 = r.categoryId then (e.1, r.total) else e
              else m ++ [(r.categoryId, r.total)]) m) k =
        totalsLookup m k := by
  induction rows with
  | nil => intro m; rfl
  | cons r t ih =>
    intro m
    simp only [List.foldl_cons]
    rw [ih fun x hx => h x (List.mem_cons_of_mem r hx)]
    exact storedStep_lookup_other m r k (h r (List.mem_cons_self r t))

theorem storedFold_lookup_mem (rows : List DbCategorySnapshot)
    (hnd : rows.Pairwise fun r1 r2 => r1.categoryId ≠ r2.categoryId) (r : DbCategorySnapshot)
    (hr : r ∈ rows) :
    ∀ m : List (Nat × ℚ),
      totalsLookup
          (rows.foldl
            (fun m r =>
              if m.any fun e => e.1 = r.categoryId then
                m.map fun e => if e.1 = r.categoryId then (e.1, r.total) else e
              else m ++ [(r.categoryId, r.total)]) m) r.categoryId =
        some r.total := by
  induction rows with
  | nil => simp at hr
  | cons r0 t ih =>
    intro m
    simp only [List.foldl_cons]
    rw [List.pairwise_cons] at hnd
    rcases List.mem_cons.mp hr with rfl | hrt
    · rw [storedFold_lookup_other t r.categoryId fun x hx => (hnd.1 x hx).symm]
      exact storedStep_lookup_self m r
    · exact ih hnd.2 hrt _

theorem storedFold_entries (rows : List DbCategorySnapshot) :
    ∀ (m : List (Nat × ℚ)) (e : Nat × ℚ),
      e ∈ rows.foldl
          (fun m r =>
            if m.any fun e => e.1 = r.categoryId then
              m.map fun e => if e.1 = r.categoryId then (e.1, r.total) else e
            else m ++ [(r.categoryId, r.total)]) m →
        e ∈ m ∨ ∃ r ∈ rows, e = (r.categoryId, r.total) := by
  induction rows with
  | nil => intro m e he; exact Or.inl he
  | cons r0 t ih =>
    intro m e he
    simp only [List.foldl_cons] at he
    rcases ih _ e he with hstep | ⟨r, hrt, hre⟩
    · split at hstep
      · obtain ⟨x, hx, hxe⟩ := List.mem_map.mp hstep
        by_cases hxr : x.1 = r0.categoryId
        · rw [if_pos hxr] at hxe
          right
          exact ⟨r0, List.mem_cons_self r0 t, by rw [← hxe, hxr]⟩
        · rw [if_neg hxr] at hxe
          exact Or.inl (hxe ▸ hx)
      · rcases List.mem_append.mp hstep with hx | hx
        · exact Or.inl hx
        · right
          exact ⟨r0, List.mem_cons_self r0 t, List.mem_singleton.mp hx⟩
    · exact Or.inr ⟨r, List.mem_cons_of_mem r0 hrt, hre⟩

theorem storedLookup_some_spec (rows : List DbCategorySnapshot) (cid : Nat) (q : ℚ)
    (h : totalsLookup (storedCategoryTotals rows) cid = some q) :
    ∃ r ∈ rows, r.categoryId = cid ∧ r.total = q := by
  unfold totalsLookup storedCategoryTotals at h
  cases hf : (rows.foldl
      (fun m r =>
        if m.any fun e => e.1 = r.categoryId then
          m.map fun e => if e.1 = r.categoryId then (e.1, r.total) else e
        else m ++ [(r.categoryId, r.total)]) []).find? fun e => e.1 = cid with
  | none => rw [hf] at h; simp at h
  | some e =>
    rw [hf] at h
    have h2 : e.2 = q := by simpa using h
    have he_mem := List.mem_of_find?_eq_some hf
    have he_cid : e.1 = cid := by simpa using List.find?_some hf
    rcases storedFold_entries rows [] e he_mem with hnil | ⟨r, hr, hre⟩
    · simp at hnil
    · refine ⟨r, hr, ?_, ?_⟩
      · rw [hre] at he_cid
        simpa using he_cid
      · rw [hre] at h2
        simpa using h2

/-! ## Congruence and preservation for the auditor -/

theorem verifySnapshot_congr (d db : DB) (m : String) (hacc : d.accounts = db.accounts)
    (hbal : d.balances = db.balances)
    (hget : monthlyGet d.monthlySnapshots m = monthlyGet db.monthlySnapshots m)
    (hcat : categoryRowsOf d m = categoryRowsOf db m) :
    verifySnapshot d m = verifySnapshot db m := by
  unfold categoryRowsOf at hcat
  unfold verifySnapshot
  rw [hget, calculateExpectedSnapshot_congr d db m hacc hbal, hcat]

theorem integrity_fold_preserves_verified (db : DB) (now : String) (months : List String) :
    ∀ d : DB, d.accounts = db.accounts → d.balances = db.balances →
      ∀ m, verifySnapshot d m = true →
        monthlyGet
            (months.foldl
              (fun d m' =>
                if verifySnapshot d m' then d else regenerateSnapshotForMonth d m' now)
              d).monthlySnapshots m =
          monthlyGet d.monthlySnapshots m ∧
        categoryRowsOf
            (months.foldl
              (fun d m' =>
                if verifySnapshot d m' then d else regenerateSnapshotForMonth d m' now)
              d) m =
          categoryRowsOf d m := by
  induction months with
  | nil => intro d _ _ m _; exact ⟨rfl, rfl⟩
  | cons m' t ih =>
    intro d hacc hbal m hver
    simp only [List.foldl_cons]
    by_cases hv : verifySnapshot d m' = true
    · rw [if_pos hv]
      exact ih d hacc hbal m hver
    · rw [if_neg hv]
      have hmm : m' ≠ m := fun h => hv (h ▸ hver)
      have hne : m ≠ m' := fun h => hmm h.symm
      have hget := monthlyGet_write_other d m' now m hne
      have hcat := categoryRowsOf_write_other d m' now m hne
      have hver' : verifySnapshot (regenerateSnapshotForMonth d m' now) m = true := by
        rw [verifySnapshot_congr (regenerateSnapshotForMonth d m' now) d m
          (writeSnapshotForMonth_accounts d m' now) (writeSnapshotForMonth_balances d m' now)
          hget hcat]
        exact hver
      obtain ⟨h1, h2⟩ := ih (regenerateSnapshotForMonth d m' now)
        ((writeSnapshotForMonth_accounts d m' now).trans hacc)
        ((writeSnapshotForMonth_balances d m' now).trans hbal) m hver'
      exact ⟨h1.trans hget, h2.trans hcat⟩

/-! ## C10 -/

/-- C10: the auditor's per-month verification is one-directional on category
rows.  On a table holding at most one `CategorySnapshot` row per category for
the month, `verifySnapshot` returns `true` exactly when a stored
`MonthlySnapshot` row exists whose net worth is within 0.01 of the recomputed
one and every recomputed per-category total has a stored row for its category
within 0.01 — stored rows for categories with no recomputed total are never
consulted; and a month whose verification succeeds is left untouched by the
integrity sweep (its stored rows are not repaired). -/
theorem verify_one_directional (db : DB) (month now : String)
    (hnd : (categoryRowsOf db month).Pairwise fun r1 r2 => r1.categoryId ≠ r2.categoryId) :
    (verifySnapshot db month = true ↔
        ∃ stored, monthlyGet db.monthlySnapshots month = some stored ∧
          |stored.netWorth - (calculateExpectedSnapshot db month).netWorth| ≤ 1/100 ∧
          ∀ e ∈ (calculateExpectedSnapshot db month).categoryTotals,
            ∃ r ∈ categoryRowsOf db month, r.categoryId = e.1 ∧ |r.total - e.2| ≤ 1/100) ∧
      (verifySnapshot db month = true →
        monthlyGet (runIntegrityCheck db now).monthlySnapshots month =
            monthlyGet db.monthlySnapshots month ∧
          categoryRowsOf (runIntegrityCheck db now) month = categoryRowsOf db month) := by
  constructor
  · unfold verifySnapshot
    cases hget : monthlyGet db.monthlySnapshots month with
    | none =>
      simp only
      constructor
      · intro h; simp at h
      · rintro ⟨stored, hs, -⟩
        simp at hs
    | some stored =>
      simp only
      by_cases htol : (1:ℚ)/100 < |stored.netWorth - (calculateExpectedSnapshot db month).netWorth|
      · rw [if_pos htol]
        constructor
        · intro h; simp at h
        · rintro ⟨stored', hs, htol', -⟩
          obtain rfl : stored = stored' := by simpa using hs
          exact absurd htol (not_lt.mpr htol')
      · rw [if_neg htol]
        rw [List.all_eq_true]
        constructor
        · intro h
          refine ⟨stored, rfl, not_lt.mp htol, ?_⟩
          intro e he
          have := h e he
          cases hlk : totalsLookup
              (storedCategoryTotals (db.categorySnapshots.filter fun r => r.month = month))
              e.1 with
          | none => rw [hlk] at this; simp at this
          | some st =>
            rw [hlk] at this
            simp only [decide_eq_true_eq, not_lt] at this
            obtain ⟨r, hr, hrc, hrt⟩ := storedLookup_some_spec _ e.1 st hlk
            exact ⟨r, hr, hrc, by rw [hrt]; exact this⟩
        · rintro ⟨stored', hs, -, hcat⟩
          obtain rfl : stored = stored' := by simpa using hs
          intro e he
          obtain ⟨r, hr, hrc, hrt⟩ := hcat e he
          have hlk : totalsLookup
              (storedCategoryTotals (db.categorySnapshots.filter fun r => r.month = month))
              e.1 =
              some r.total := by
            rw [← hrc]
            exact storedFold_lookup_mem _ hnd r hr []
          rw [hlk]
          simpa using hrt
  · intro hver
    exact integrity_fold_preserves_verified db now (getAllMonths db) db rfl rfl month hver

/-- C10 witness: the characterization applied to the concrete consistent
state that carries an extra stale category row (category 99) for
January 2024: the month verifies and the integrity sweep leaves its stored
rows untouched. -/
theorem verify_one_directional_witness :
    ((categoryRowsOf extraRowDb "2024-01").Pairwise
        fun r1 r2 => r1.categoryId ≠ r2.categoryId) ∧
      monthlyGet (runIntegrityCheck extraRowDb "now").monthlySnapshots "2024-01" =
          monthlyGet extraRowDb.monthlySnapshots "2024-01" ∧
        categoryRowsOf (runIntegrityCheck extraRowDb "now") "2024-01" =
          categoryRowsOf extraRowDb "2024-01" := by
  have hv : verifySnapshot extraRowDb "2024-01" = true := by
    simp +decide [verifySnapshot, monthlyGet, List.find?, calculateExpectedSnapshot,
      expectedStep, balancesLast, expectedTotalsUpdate, storedCategoryTotals, totalsLookup,
      extraRowDb]
  exact ⟨by decide,
    (verify_one_directional extraRowDb "2024-01" "now" (by decide)).2 hv⟩

/-! ## Serialization roundtrips for the import path -/

theorem decodeNat_encode (n : Nat) : decodeNat (.jnum n) = some n := by
  simp [decodeNat]

theorem decodeOwner_encode (o : OwnerType) : decodeOwner (.jstr (ownerToStr o)) = some o := by
  cases o <;> simp [decodeOwner, ownerToStr]

theorem decodeType_encode (t : AccountType) : decodeType (.jstr (typeToStr t)) = some t := by
  cases t <;> simp [decodeType, typeToStr]

theorem decodeAccount_encode (a : DbAccount) : decodeAccount (encodeAccount a) = some a := by
  obtain ⟨id, name, bank, categoryId, owner, type, createdAt, notes⟩ := a
  cases owner <;> cases type <;> cases notes <;>
    simp +decide [decodeAccount, encodeAccount, jsGetField, List.find?, decodeNat, decodeStr,
      decodeOwner, decodeType, decodeOptStr, ownerToStr, typeToStr]

theorem decodeBalance_encode (b : DbBalance) : decodeBalance (encodeBalance b) = some b := by
  obtain ⟨id, accountId, date, value⟩ := b
  simp +decide [decodeBalance, encodeBalance, jsGetField, List.find?, decodeNat, decodeStr,
    decodeRat]

theorem decodeCategory_encode (c : DbCategory) : decodeCategory (encodeCategory c) = some c := by
  obtain ⟨id, name, type⟩ := c
  cases type <;>
    simp +decide [decodeCategory, encodeCategory, jsGetField, List.find?, decodeNat, decodeStr,
      decodeType, typeToStr]

theorem decodeTransaction_encode (t : DbTransaction) :
    decodeTransaction (encodeTransaction t) = some t := by
  obtain ⟨id, accountId, date, amount, description⟩ := t
  simp +decide [decodeTransaction, encodeTransaction, jsGetField, List.find?, decodeNat,
    decodeStr, decodeRat]

theorem decodeMonthlySnapshot_encode (s : DbMonthlySnapshot) :
    decodeMonthlySnapshot (encodeMonthlySnapshot s) = some s := by
  obtain ⟨month, assetsTotal, liabilitiesTotal, netWorth, createdAt⟩ := s
  simp +decide [decodeMonthlySnapshot, encodeMonthlySnapshot, jsGetField, List.find?,
    decodeStr, decodeRat]

theorem decodeCategorySnapshot_encode (s : DbCategorySnapshot) :
    decodeCategorySnapshot (encodeCategorySnapshot s) = some s := by
  obtain ⟨id, month, categoryId, type, total⟩ := s
  cases type <;>
    simp +decide [decodeCategorySnapshot, encodeCategorySnapshot, jsGetField, List.find?,
      decodeNat, decodeStr, decodeType, typeToStr, decodeRat]

theorem decodeProfile_encode (p : DbProfile) : decodeProfile (encodeProfile p) = some p := by
  obtain ⟨id, userName, spouseName, userColor, spouseColor⟩ := p
  cases userName <;> cases spouseName <;> cases userColor <;> cases spouseColor <;>
    simp +decide [decodeProfile, encodeProfile, jsGetField, List.find?, decodeNat,
      decodeOptStr]

theorem decodeRows_encode {ρ : Type} (f : JsValue → Option ρ) (g : ρ → JsValue)
    (h : ∀ x, f (g x) = some x) (l : List ρ) :
    decodeRows f (.jarr (l.map g)) = l := by
  show List.filterMap f (l.map g) = l
  rw [List.filterMap_map]
  induction l with
  | nil => rfl
  | cons x t ih =>
    simp only [List.filterMap_cons, Function.comp_apply, h x]
    rw [ih]

/-! ## C9 -/

/-- C9: the import path validates before it destroys, and acceptance loads
wholesale.  A document whose `version` field is not a number, or whose `data`
field is not a truthy object, makes `importDatabase` throw the import-format
error with every table left untouched; a well-formed export document —
anything `exportDatabase` produces — is accepted, every table is replaced by
the document's arrays, and a full snapshot regeneration runs on the loaded
state (only the never-rewound key generators keep memory of the prior
state). -/
theorem import_validates_before_destruction :
    (∀ (db : DB) (json : JsValue) (now : String),
        (jsTypeof (jsGetField json "version") ≠ "number" ∨
          ¬ (jsTruthy (jsGetField json "data") = true ∧
            jsTypeof (jsGetField json "data") = "object")) →
        importDatabase db json now = (db, some DbError.invalidImport)) ∧
      (∀ (db src : DB) (verno : ℚ) (exportedAt now : String),
        importDatabase db (exportDatabase src verno exportedAt) now =
          (generateAllSnapshots
            { accounts := src.accounts, balances := src.balances,
              categories := src.categories, transactions := src.transactions,
              monthlySnapshots := src.monthlySnapshots,
              categorySnapshots := src.categorySnapshots, profile := src.profile,
              nextAccountId := bumpGen db.nextAccountId (src.accounts.map (·.id)),
              nextBalanceId := bumpGen db.nextBalanceId (src.balances.map (·.id)),
              nextCategorySnapshotId :=
                bumpGen db.nextCategorySnapshotId (src.categorySnapshots.map (·.id)) } now,
            none)) := by
  constructor
  · intro db json now hbad
    have hfalse : isDatabaseExport json = false := by
      unfold isDatabaseExport
      by_cases h1 : (decide (¬ jsTruthy json = true) || decide (jsTypeof json ≠ "object")) =
          true
      · rw [if_pos h1]
      · rw [if_neg h1]
        rcases hbad with hb | hb
        · rw [if_pos hb]
        · by_cases h2 : jsTypeof (jsGetField json "version") ≠ "number"
          · rw [if_pos h2]
          · rw [if_neg h2]
            have hcond : (decide (¬ jsTruthy (jsGetField json "data") = true) ||
                decide (jsTypeof (jsGetField json "data") ≠ "object")) = true := by
              by_cases ht : jsTruthy (jsGetField json "data") = true
              · have hobj : jsTypeof (jsGetField json "data") ≠ "object" :=
                  fun hobj => hb ⟨ht, hobj⟩
                simp [hobj]
              · simp [ht]
            rw [if_pos hcond]
    unfold importDatabase
    rw [if_pos (by rw [hfalse]; simp)]
  · intro db src verno exportedAt now
    have htrue : isDatabaseExport (exportDatabase src verno exportedAt) = true := by
      simp +decide [isDatabaseExport, exportDatabase, jsGetField, List.find?, jsTypeof,
        jsTruthy]
    unfold importDatabase
    rw [if_neg (by rw [htrue]; simp)]
    have hdata : jsGetField (exportDatabase src verno exportedAt) "data" =
        .jobj [("accounts", .jarr (src.accounts.map encodeAccount)),
          ("balances", .jarr (src.balances.map encodeBalance)),
          ("categories", .jarr (src.categories.map encodeCategory)),
          ("transactions", .jarr (src.transactions.map encodeTransaction)),
          ("snapshots", .jarr (src.monthlySnapshots.map encodeMonthlySnapshot)),
          ("categorySnapshots", .jarr (src.categorySnapshots.map encodeCategorySnapshot)),
          ("profile", .jarr (src.profile.map encodeProfile))] := by
      simp +decide [exportDatabase, jsGetField, List.find?]
    rw [hdata]
    simp +decide [jsGetField, List.find?, decodeRows_encode, decodeAccount_encode,
      decodeBalance_encode, decodeCategory_encode, decodeTransaction_encode,
      decodeMonthlySnapshot_encode, decodeCategorySnapshot_encode, decodeProfile_encode]

end Worths
